import Mathlib

/-!
Snake simulation core (`main.go`).

A shallow embedding of the state machine of the Snake game: the `Point` and
`Snake` records, `move`, `generateNextPoint`, `checkPoint`, `checkCollisions`,
the key handling and the tick of `run`.

Conventions of the embedding:

* `int64` fields are `Int`; an addition that can overflow is wrapped with
  `wrap64` (two's complement, as Go defines signed overflow).
* `byte` directions are `Char` (the source only compares them with the
  literals `'u'`, `'d'`, `'l'`, `'r'`).
* `[]Point` is `List Point`.
* `rand.Int63n (size-1)` is read from a stream `rnd : Nat → Int` of results,
  `pos` counting the results consumed so far.
* A run-time panic (slice bounds out of range) and a recursion that has not
  returned within the given depth `fuel` are `none`.
-/

namespace Snake2D

/-- The grid has `size` columns and rows (`const size = 10`). -/
def size : Int := 10

/-- Two's complement wrap of an integer into the `int64` range. -/
def wrap64 (z : Int) : Int :=
  (z + 9223372036854775808) % 18446744073709551616 - 9223372036854775808

/-- The record `type Point struct { x int64; y int64 }`. -/
structure Point where
  x : Int
  y : Int
deriving DecidableEq, Repr

/-- The record `type Snake struct`, field for field. -/
structure Snake where
  nextPoint : Point
  growth : Int
  direction : Char
  nextDirection : Char
  head : Point
  tail : List Point
deriving DecidableEq, Repr

/-- The method `func (s *Snake) move()`: `none` is the slice-bounds panic of
`s.tail[:len(s.tail)-delta]` when `len(s.tail) - delta` is negative. -/
def move (s : Snake) : Option Snake :=
  let delta : Nat := if s.growth > 0 then 0 else 1
  -- `s.growth--` is guarded by `s.growth > 0`, so it cannot overflow
  let growth : Int := if s.growth > 0 then s.growth - 1 else s.growth
  if s.tail.length < delta then none
  else
    let tail := s.head :: s.tail.take (s.tail.length - delta)
    let direction := s.nextDirection
    let dY : Int := if direction = 'u' then -1 else if direction = 'd' then 1 else 0
    let dX : Int := if direction = 'u' then 0 else if direction = 'd' then 0
      else if direction = 'l' then -1 else if direction = 'r' then 1 else 0
    let y0 := wrap64 (s.head.y + dY)
    let x0 := wrap64 (s.head.x + dX)
    let y1 := if y0 > size then 1 else y0
    let y2 := if y1 < 1 then size else y1
    let x1 := if x0 > size then 1 else x0
    let x2 := if x1 < 1 then size else x1
    some { s with growth := growth, tail := tail, direction := direction,
                  head := ⟨x2, y2⟩ }

/-- The loop `for _, point := range s.tail` of `generateNextPoint`, over the
cells still to visit: a cell equal to the current `s.nextPoint` calls `g`
(the recursive `s.generateNextPoint()`), and the scan then continues. -/
def scanTail (g : Snake → Nat → Option (Snake × Nat)) :
    List Point → Snake → Nat → Option (Snake × Nat)
  | [], s, pos => some (s, pos)
  | point :: rest, s, pos =>
    if point = s.nextPoint then
      match g s pos with
      | none => none
      | some (s1, pos1) => scanTail g rest s1 pos1
    else scanTail g rest s pos

/-- The method `func (s *Snake) generateNextPoint()`. `rnd i` is the result
of the `i`-th call of `rand.Int63n(size-1)`, `pos` the number of calls made so
far, `fuel` a bound on the depth of the recursion. A result of `Int63n(size-1)`
is below `size - 1`, so the `+ 1` cannot overflow and is not wrapped. -/
def generateNextPoint (rnd : Nat → Int) :
    Nat → Snake → Nat → Option (Snake × Nat)
  | 0, _, _ => none
  | fuel + 1, s, pos =>
    let s1 : Snake := { s with nextPoint := ⟨rnd pos + 1, rnd (pos + 1) + 1⟩ }
    let r : Option (Snake × Nat) :=
      if s1.nextPoint = s1.head then generateNextPoint rnd fuel s1 (pos + 2)
      else some (s1, pos + 2)
    match r with
    | none => none
    | some (s2, pos2) => scanTail (generateNextPoint rnd fuel) s2.tail s2 pos2

/-- The method `func (s *Snake) checkPoint()`. -/
def checkPoint (rnd : Nat → Int) (fuel : Nat) (s : Snake) (pos : Nat) :
    Option (Snake × Nat) :=
  if s.head = s.nextPoint then
    generateNextPoint rnd fuel { s with growth := wrap64 (s.growth + 1) } pos
  else some (s, pos)

/-- The loop of `checkCollisions` at index `i`, `rest` being `tail[i:]`: the
first cell equal to the head gives `tail[0:i]` and breaks; no match leaves the
tail as it is. -/
def checkCollisionsLoop (head : Point) (tail : List Point) :
    Nat → List Point → List Point
  | _, [] => tail
  | i, point :: rest =>
    if point = head then tail.take i else checkCollisionsLoop head tail (i + 1) rest

/-- The method `func (s *Snake) checkCollisions()`. -/
def checkCollisions (s : Snake) : Snake :=
  { s with tail := checkCollisionsLoop s.head s.tail 0 s.tail }

/-- The package variable `var snake Snake`; `nextPoint` has Go's zero value. -/
def snake : Snake :=
  { nextPoint := ⟨0, 0⟩
    growth := 0
    direction := 'u'
    nextDirection := 'u'
    head := ⟨3, 3⟩
    tail := [⟨3, 4⟩, ⟨3, 5⟩, ⟨3, 6⟩, ⟨3, 7⟩, ⟨3, 8⟩] }

/-- The four arrow keys as `win.Pressed` reports them in one frame. -/
structure Keys where
  left : Bool
  right : Bool
  up : Bool
  down : Bool
deriving DecidableEq, Repr

/-- The key handling of `run`: four `if`s in the order Left, Right, Up, Down,
each testing the current `direction`. -/
def handleKeys (k : Keys) (s : Snake) : Snake :=
  let s1 := if k.left ∧ s.direction ≠ 'r' then { s with nextDirection := 'l' } else s
  let s2 := if k.right ∧ s1.direction ≠ 'l' then { s1 with nextDirection := 'r' } else s1
  let s3 := if k.up ∧ s2.direction ≠ 'd' then { s2 with nextDirection := 'u' } else s2
  if k.down ∧ s3.direction ≠ 'u' then { s3 with nextDirection := 'd' } else s3

/-- One tick of `run`: `snake.move()`, `snake.checkPoint()`,
`snake.checkCollisions()`. -/
def tick (rnd : Nat → Int) (fuel : Nat) (s : Snake) (pos : Nat) :
    Option (Snake × Nat) :=
  match move s with
  | none => none
  | some s1 =>
    match checkPoint rnd fuel s1 pos with
    | none => none
    | some (s2, pos2) => some (checkCollisions s2, pos2)

/-- The candidate cell drawn by `generateNextPoint` when `pos` results have
been consumed: `Point{rand.Int63n(size-1) + 1, rand.Int63n(size-1) + 1}`. -/
def candidate (rnd : Nat → Int) (pos : Nat) : Point :=
  ⟨rnd pos + 1, rnd (pos + 1) + 1⟩

/-- A cell is occupied by the snake when it is the head or a tail cell. -/
def occupied (s : Snake) (p : Point) : Prop :=
  p = s.head ∨ p ∈ s.tail

instance (s : Snake) (p : Point) : Decidable (occupied s p) := by
  unfold occupied
  exact inferInstance

/-- Plain rejection sampling, as the specification words food placement: draw
a candidate, retry while it coincides with the head or a tail cell, and return
the first candidate that does not. `fuel` bounds the number of candidates. -/
def rejectionSample (rnd : Nat → Int) :
    Nat → Snake → Nat → Option (Snake × Nat)
  | 0, _, _ => none
  | fuel + 1, s, pos =>
    if occupied s (candidate rnd pos) then rejectionSample rnd fuel s (pos + 2)
    else some ({ s with nextPoint := candidate rnd pos }, pos + 2)

/-- A cell of the grid: both coordinates in `[1, size]`. -/
def inGrid (p : Point) : Prop :=
  1 ≤ p.x ∧ p.x ≤ size ∧ 1 ≤ p.y ∧ p.y ≤ size

instance (p : Point) : Decidable (inGrid p) := by
  unfold inGrid
  exact inferInstance

/-- A stream of `rand.Int63n` results whose candidates are `(3,5)` (a tail
cell of `snake`), `(3,3)` (its head), then `(5,6)`. -/
def drawsRetryInScan : Nat → Int
  | 0 => 2
  | 1 => 4
  | 2 => 2
  | 3 => 2
  | 4 => 4
  | _ => 5

/-- The `dX` that the `switch` of `move` selects for a direction. -/
def deltaX (d : Char) : Int :=
  if d = 'u' then 0 else if d = 'd' then 0 else if d = 'l' then -1 else if d = 'r' then 1 else 0

/-- The `dY` that the `switch` of `move` selects for a direction. -/
def deltaY (d : Char) : Int :=
  if d = 'u' then -1 else if d = 'd' then 1 else 0

/-- The two wrap tests of `move` on one coordinate, in the source's order. -/
def wrapCoord (c : Int) : Int :=
  let c1 := if c > size then 1 else c
  if c1 < 1 then size else c1

/-- The head that `move` computes from the old head and the direction taken. -/
def stepHead (d : Char) (h : Point) : Point :=
  ⟨wrapCoord (wrap64 (h.x + deltaX d)), wrapCoord (wrap64 (h.y + deltaY d))⟩

/-- The directions `a` and `b` are opposite: up/down or left/right. -/
def opposite (a b : Char) : Prop :=
  (a = 'u' ∧ b = 'd') ∨ (a = 'd' ∧ b = 'u') ∨ (a = 'l' ∧ b = 'r') ∨ (a = 'r' ∧ b = 'l')

instance (a b : Char) : Decidable (opposite a b) := by
  unfold opposite
  exact inferInstance

/-- The states of the variable `snake` at the top of the frame loop of `run`:
the state after the startup `snake.generateNextPoint()`, and from there any
sequence of key handling (any keys pressed) and ticks (any random results). -/
inductive Reachable : Snake → Prop
  | start (rnd : Nat → Int) (fuel pos : Nat) (s : Snake) (pos2 : Nat) :
      generateNextPoint rnd fuel snake pos = some (s, pos2) → Reachable s
  | keys (s : Snake) (k : Keys) : Reachable s → Reachable (handleKeys k s)
  | tick (rnd : Nat → Int) (fuel : Nat) (s : Snake) (pos : Nat) (s2 : Snake) (pos2 : Nat) :
      Reachable s → tick rnd fuel s pos = some (s2, pos2) → Reachable s2

/-- The initial snake with the food on the cell just above its head. -/
def snakeFoodAhead : Snake :=
  { snake with nextPoint := ⟨3, 2⟩ }

/-- The state one tick after `snakeFoodAhead` when every random result is 4. -/
def snakeAfterEating : Snake :=
  { nextPoint := ⟨5, 5⟩
    growth := 1
    direction := 'u'
    nextDirection := 'u'
    head := ⟨3, 2⟩
    tail := [⟨3, 3⟩, ⟨3, 4⟩, ⟨3, 5⟩, ⟨3, 6⟩, ⟨3, 7⟩] }

/-- The toroidal neighbour of a coordinate: `((c - 1 + delta) mod size) + 1`. -/
def torus (c delta : Int) : Int :=
  (c - 1 + delta) % size + 1

/-- The initial snake with its head on the top row of the last column. -/
def snakeAtTopEdge : Snake :=
  { snake with head := ⟨10, 1⟩ }

/-- The initial snake with its head on the last column, about to go right. -/
def snakeAtRightEdge : Snake :=
  { snake with head := ⟨10, 4⟩, direction := 'r', nextDirection := 'r',
               tail := [⟨9, 4⟩, ⟨8, 4⟩] }

/-- The state `move` gives on `snakeAtTopEdge`. -/
def snakeAtTopEdgeMoved : Snake :=
  { snakeAtTopEdge with head := ⟨10, 10⟩, tail := [⟨10, 1⟩, ⟨3, 4⟩, ⟨3, 5⟩, ⟨3, 6⟩, ⟨3, 7⟩] }

/-- The state `move` gives on `snakeAtRightEdge`. -/
def snakeAtRightEdgeMoved : Snake :=
  { snakeAtRightEdge with head := ⟨1, 4⟩, tail := [⟨10, 4⟩, ⟨9, 4⟩] }

/-- The state `move` gives on the initial `snake`: head `(3,2)`, tail shifted. -/
def snakeMoved : Snake :=
  { snake with head := ⟨3, 2⟩, tail := [⟨3, 3⟩, ⟨3, 4⟩, ⟨3, 5⟩, ⟨3, 6⟩, ⟨3, 7⟩] }

/-- The initial snake with one extension pending. -/
def snakeGrowing : Snake :=
  { snake with growth := 1 }

/-- The state `move` gives on `snakeGrowing`: the tail keeps its last cell. -/
def snakeGrown : Snake :=
  { snake with head := ⟨3, 2⟩, tail := [⟨3, 3⟩, ⟨3, 4⟩, ⟨3, 5⟩, ⟨3, 6⟩, ⟨3, 7⟩, ⟨3, 8⟩] }

/-- A snake about to bite itself: going up from `(3,3)` the head lands on
the tail cell `(3,2)`. -/
def snakeCoiled : Snake :=
  { snake with tail := [⟨3, 4⟩, ⟨4, 4⟩, ⟨4, 3⟩, ⟨4, 2⟩, ⟨3, 2⟩, ⟨2, 2⟩] }

/-- The state `move` gives on `snakeCoiled`. -/
def snakeCoiledMoved : Snake :=
  { snake with head := ⟨3, 2⟩, tail := [⟨3, 3⟩, ⟨3, 4⟩, ⟨4, 4⟩, ⟨4, 3⟩, ⟨4, 2⟩, ⟨3, 2⟩] }

/-- The state one tick after `snakeCoiled`: the tail is cut before `(3,2)`. -/
def snakeBitten : Snake :=
  { snake with head := ⟨3, 2⟩, tail := [⟨3, 3⟩, ⟨3, 4⟩, ⟨4, 4⟩, ⟨4, 3⟩, ⟨4, 2⟩] }

/-- The moved initial snake with the food under its head. -/
def snakeOnFood : Snake :=
  { snakeMoved with nextPoint := ⟨3, 2⟩ }

/-- A stream of `rand.Int63n` results whose candidates are `(3,2)` (the head
of `snakeOnFood`, the cell just eaten), `(3,5)` (a tail cell), then `(5,6)`. -/
def drawsAfterEating : Nat → Int
  | 0 => 2
  | 1 => 1
  | 2 => 2
  | 3 => 4
  | 4 => 4
  | _ => 5

/-- The startup state when every random result is 4: food at `(5,5)`. -/
def snakeStarted : Snake :=
  { snake with nextPoint := ⟨5, 5⟩ }

/-- Only the Down key is pressed. -/
def keysDown : Keys :=
  { left := false, right := false, up := false, down := true }

/-- The directions requested by the pressed keys, in the order `run` tests
the keys (Left, Right, Up, Down), keeping those that are not the opposite of
the current direction: the specification's wording of the key filter. -/
def acceptedDirections (k : Keys) (direction : Char) : List Char :=
  ([(k.left, 'l'), (k.right, 'r'), (k.up, 'u'), (k.down, 'd')].filter
    (fun e => e.1 && decide (¬ opposite direction e.2))).map (fun e => e.2)

/-- No key pressed but Left. -/
def keysLeft : Keys :=
  { left := true, right := false, up := false, down := false }

/-- No key pressed but Right. -/
def keysRight : Keys :=
  { left := false, right := true, up := false, down := false }

/-- The started snake going up with a pending turn to the left. -/
def snakeTurningLeft : Snake :=
  { snakeStarted with nextDirection := 'l' }

/-- The initial snake without any tail cell, nothing pending. -/
def snakeNoTail : Snake :=
  { snake with tail := [] }

/-- The initial snake without any tail cell, one extension pending. -/
def snakeNoTailGrowing : Snake :=
  { snake with tail := [], growth := 1 }

/-- The contract of `rand.Int63n(size-1)`: every result is in `[0, size-1)`. -/
def validDraws (rnd : Nat → Int) : Prop :=
  ∀ i, 0 ≤ rnd i ∧ rnd i < size - 1

/-- The cells `generateNextPoint` samples from: both coordinates in
`[1, size-1]`. -/
def inFoodRange (p : Point) : Prop :=
  1 ≤ p.x ∧ p.x ≤ size - 1 ∧ 1 ≤ p.y ∧ p.y ≤ size - 1

instance (p : Point) : Decidable (inFoodRange p) := by
  unfold inFoodRange
  exact inferInstance

/-- The started snake after one tick going up (food at `(5,5)` untouched). -/
def snakeTick1 : Snake :=
  { snakeStarted with head := ⟨3, 2⟩, tail := [⟨3, 3⟩, ⟨3, 4⟩, ⟨3, 5⟩, ⟨3, 6⟩, ⟨3, 7⟩] }

/-- The started snake after two ticks going up. -/
def snakeTick2 : Snake :=
  { snakeStarted with head := ⟨3, 1⟩, tail := [⟨3, 2⟩, ⟨3, 3⟩, ⟨3, 4⟩, ⟨3, 5⟩, ⟨3, 6⟩] }

/-- The started snake after three ticks going up: the head has wrapped to
row `size`. -/
def snakeTick3 : Snake :=
  { snakeStarted with head := ⟨3, 10⟩, tail := [⟨3, 1⟩, ⟨3, 2⟩, ⟨3, 3⟩, ⟨3, 4⟩, ⟨3, 5⟩] }

/-- The 81 cells of the food range, row by row, alternating the direction
from row to row so that consecutive cells are neighbours. -/
def foodCells : List Point :=
  (List.range 81).map (fun i =>
    ⟨((if (i / 9) % 2 = 0 then i % 9 + 1 else 9 - i % 9 : Nat) : Int), ((i / 9 + 1 : Nat) : Int)⟩)

/-- A snake lying on every cell of the food range: head `(1,1)`, the tail
winding through the other 80 cells of `[1,9]²`. -/
def snakeFull : Snake :=
  { nextPoint := ⟨1, 1⟩
    growth := 0
    direction := 'l'
    nextDirection := 'l'
    head := ⟨1, 1⟩
    tail := foodCells.drop 1 }

/-- A stream of `rand.Int63n` results all of whose candidates are `p`. -/
def drawsFor (p : Point) : Nat → Int :=
  fun i => if i % 2 = 0 then p.x - 1 else p.y - 1

/-- The bytes of an ASCII text, as Go holds a string. -/
def asciiBytes (t : String) : List Nat :=
  t.toList.map Char.toNat

/-- The bytes of the string literal `"UTF-8"`. -/
def utf8Marker : List Nat :=
  [85, 84, 70, 45, 56]

/-- The library function `strings.Contains(s, substr)` on byte strings:
whether `substr` occurs in `s`, tried at every position from the left. -/
def stringsContains : List Nat → List Nat → Bool
  | [], substr => substr.isPrefixOf []
  | c :: t, substr => substr.isPrefixOf (c :: t) || stringsContains t substr

/-- The function `hasUnicodeSupport`, `lang` being the bytes that
`os.Getenv("LANG")` returns (none when the variable is unset). -/
def hasUnicodeSupport (lang : List Nat) : Bool :=
  stringsContains lang utf8Marker

/-- The slice literal `f` of `randomFoodEmoji`. -/
def foodEmojis : List Char :=
  ['🍒', '🍍', '🍑', '🍇', '🍏', '🍌', '🍫', '🍭', '🍕', '🍩', '🍗', '🍖', '🍬', '🍤', '🍪']

/-- The function `randomFoodEmoji`, `r` being the result of
`rand.Intn(len(f))`; `none` is the index-out-of-range panic of `f[r]`. -/
def randomFoodEmoji (r : Nat) : Option Char :=
  foodEmojis[r]?

/-- The function `getFoodEmoji`. -/
def getFoodEmoji (lang : List Nat) (r : Nat) : Option Char :=
  if hasUnicodeSupport lang then randomFoodEmoji r else some '@'

/-- The 100 cells of the grid, row by row. -/
def gridCells : List Point :=
  (List.range 100).map (fun i => ⟨((i % 10 + 1 : Nat) : Int), ((i / 10 + 1 : Nat) : Int)⟩)

/-- One of the four directions of the game. -/
def isDirection (d : Char) : Prop :=
  d = 'u' ∨ d = 'd' ∨ d = 'l' ∨ d = 'r'

instance (d : Char) : Decidable (isDirection d) := by
  unfold isDirection
  exact inferInstance

/-- The snake does not overlap itself and lies in the grid: the head is on no
tail cell, the tail cells are pairwise distinct, and every tail cell is a cell
of the grid. -/
def noOverlap (s : Snake) : Prop :=
  s.head ∉ s.tail ∧ s.tail.Nodup ∧ ∀ p, p ∈ s.tail → inGrid p

/-- The state `snakeOnFood` with `growth` at the largest `int64`. -/
def snakeOnFoodMaxGrowth : Snake :=
  { snakeOnFood with growth := 9223372036854775807 }

/-! ## Self-collision check -/

/-- The loop of `checkCollisions`, started at index `pre.length` on the cells
after a head-free prefix `pre`, returns `pre` followed by the cells of `rest`
up to the first one equal to the head. -/
theorem checkCollisionsLoop_eq (head : Point) (pre rest : List Point)
    (hpre : head ∉ pre) :
    checkCollisionsLoop head (pre ++ rest) pre.length rest
      = pre ++ rest.takeWhile (fun p => decide (p ≠ head)) := by
  induction rest generalizing pre with
  | nil => simp [checkCollisionsLoop]
  | cons point rest ih =>
    by_cases hp : point = head
    · simp [checkCollisionsLoop, hp, List.takeWhile_cons]
    · have hpre2 : head ∉ pre ++ [point] := by
        simp only [List.mem_append, List.mem_singleton, not_or]
        exact ⟨hpre, fun h => hp h.symm⟩
      have h := ih (pre ++ [point]) hpre2
      simp only [List.append_assoc, List.singleton_append, List.length_append,
        List.length_singleton] at h
      simp [checkCollisionsLoop, hp, List.takeWhile_cons, h]

theorem checkCollisions_tail (s : Snake) :
    (checkCollisions s).tail = s.tail.takeWhile (fun p => decide (p ≠ s.head)) := by
  have h := checkCollisionsLoop_eq s.head [] s.tail (by simp)
  simpa [checkCollisions] using h

/-- Cutting at the first index holding `h` is `takeWhile (· ≠ h)`. -/
theorem takeWhile_ne_eq_take (h : Point) (t : List Point) (i : Nat)
    (hi : t[i]? = some h) (hlt : ∀ j, j < i → t[j]? ≠ some h) :
    t.takeWhile (fun p => decide (p ≠ h)) = t.take i := by
  induction t generalizing i with
  | nil => simp at hi
  | cons a t ih =>
    cases i with
    | zero =>
      have ha : a = h := by simpa using hi
      simp [List.takeWhile_cons, ha]
    | succ i =>
      have ha : a ≠ h := by
        intro hah
        exact hlt 0 (Nat.succ_pos i) (by simp [hah])
      have hi2 : t[i]? = some h := by simpa using hi
      have hlt2 : ∀ j, j < i → t[j]? ≠ some h := by
        intro j hj
        have := hlt (j + 1) (Nat.succ_lt_succ hj)
        simpa using this
      have h2 := ih i hi2 hlt2
      simp only [List.takeWhile_cons, ne_eq, ha, not_false_eq_true, decide_True, if_true,
        List.take_succ_cons]
      exact congrArg (List.cons a) h2

/-- A prefix without `h` is a prefix of `takeWhile (· ≠ h)`. -/
theorem prefix_takeWhile_of_not_mem (h : Point) (t l : List Point)
    (hl : l <+: t) (hmem : h ∉ l) :
    l <+: t.takeWhile (fun p => decide (p ≠ h)) := by
  induction t generalizing l with
  | nil =>
    have : l = [] := List.prefix_nil.mp hl
    simp [this]
  | cons a t ih =>
    cases l with
    | nil => exact List.nil_prefix
    | cons b l =>
      obtain ⟨hab, hlt⟩ := List.cons_prefix_cons.mp hl
      have hb : b ≠ h := fun hb => hmem (by simp [hb])
      have hl2 : h ∉ l := fun hm => hmem (List.mem_cons_of_mem _ hm)
      subst hab
      simp only [List.takeWhile_cons, ne_eq, hb, not_false_eq_true, decide_True, if_true]
      exact List.cons_prefix_cons.mpr ⟨rfl, ih l hlt hl2⟩

theorem not_mem_takeWhile_ne (h : Point) (t : List Point) :
    h ∉ t.takeWhile (fun p => decide (p ≠ h)) := by
  intro hm
  have := List.mem_takeWhile_imp hm
  simp at this

theorem takeWhile_ne_of_not_mem (h : Point) (t : List Point) (hmem : h ∉ t) :
    t.takeWhile (fun p => decide (p ≠ h)) = t := by
  apply List.takeWhile_eq_self_iff.mpr
  intro a ha
  have : a ≠ h := fun hah => hmem (hah ▸ ha)
  simpa using this

/-- C1: `checkCollisions` cuts the tail at the first index whose cell equals
the head (keeping the cells strictly before it), leaves the tail unchanged when
no cell equals the head, and the result is the longest prefix of the tail that
does not contain the head; the other fields are untouched. On the tail
`[(3,4),(3,5),(3,6)]` with head `(3,5)` the result is `[(3,4)]`. -/
theorem checkCollisions_truncates_at_first_match (s : Snake) :
    (∀ i, s.tail[i]? = some s.head → (∀ j, j < i → s.tail[j]? ≠ some s.head) →
        (checkCollisions s).tail = s.tail.take i)
    ∧ (s.head ∉ s.tail → (checkCollisions s).tail = s.tail)
    ∧ (checkCollisions s).tail <+: s.tail
    ∧ s.head ∉ (checkCollisions s).tail
    ∧ (∀ l, l <+: s.tail → s.head ∉ l → l <+: (checkCollisions s).tail)
    ∧ (checkCollisions s).head = s.head
    ∧ (checkCollisions s).nextPoint = s.nextPoint
    ∧ (checkCollisions s).growth = s.growth
    ∧ (checkCollisions s).direction = s.direction
    ∧ (checkCollisions s).nextDirection = s.nextDirection
    ∧ (checkCollisions { snake with head := ⟨3, 5⟩, tail := [⟨3, 4⟩, ⟨3, 5⟩, ⟨3, 6⟩] }).tail
        = [⟨3, 4⟩] := by
  rw [checkCollisions_tail]
  refine ⟨fun i hi hlt => takeWhile_ne_eq_take _ _ i hi hlt,
    takeWhile_ne_of_not_mem _ _, List.takeWhile_prefix _, not_mem_takeWhile_ne _ _,
    fun l hl hm => prefix_takeWhile_of_not_mem _ _ l hl hm, rfl, rfl, rfl, rfl, rfl, ?_⟩
  decide

/-! ## Food generation -/

/-- A scan whose current food point is on none of the cells left calls nothing. -/
theorem scanTail_pass (g : Snake → Nat → Option (Snake × Nat)) (l : List Point)
    (s : Snake) (pos : Nat) (h : s.nextPoint ∉ l) :
    scanTail g l s pos = some (s, pos) := by
  induction l with
  | nil => rfl
  | cons point rest ih =>
    have hp : point ≠ s.nextPoint := fun hp => h (by simp [hp])
    have hr : s.nextPoint ∉ rest := fun hm => h (List.mem_cons_of_mem _ hm)
    simp [scanTail, hp, ih hr]

/-- A scan that meets the current food point retries once; when the retry
returns a point on none of the cells, the scan ends with the retry's result. -/
theorem scanTail_hit (g : Snake → Nat → Option (Snake × Nat)) (l : List Point)
    (s : Snake) (pos : Nat) (h : s.nextPoint ∈ l) (s1 : Snake) (pos1 : Nat)
    (hg : g s pos = some (s1, pos1)) (h1 : s1.nextPoint ∉ l) :
    scanTail g l s pos = some (s1, pos1) := by
  induction l with
  | nil => simp at h
  | cons point rest ih =>
    have hr1 : s1.nextPoint ∉ rest := fun hm => h1 (List.mem_cons_of_mem _ hm)
    by_cases hp : point = s.nextPoint
    · simp [scanTail, hp, hg, scanTail_pass g rest s1 pos1 hr1]
    · have hr : s.nextPoint ∈ rest := by
        rcases List.mem_cons.mp h with h0 | h0
        · exact absurd h0.symm hp
        · exact h0
      simp [scanTail, hp, ih hr hr1]

/-- A scan that meets the current food point does not return when the retry
does not. -/
theorem scanTail_hit_none (g : Snake → Nat → Option (Snake × Nat)) (l : List Point)
    (s : Snake) (pos : Nat) (h : s.nextPoint ∈ l) (hg : g s pos = none) :
    scanTail g l s pos = none := by
  induction l with
  | nil => simp at h
  | cons point rest ih =>
    by_cases hp : point = s.nextPoint
    · simp [scanTail, hp, hg]
    · have hr : s.nextPoint ∈ rest := by
        rcases List.mem_cons.mp h with h0 | h0
        · exact absurd h0.symm hp
        · exact h0
      simp [scanTail, hp, ih hr]

/-- Rejection sampling does not read the old food point. -/
theorem rejectionSample_nextPoint_irrel (rnd : Nat → Int) (fuel : Nat) (s : Snake)
    (q : Point) (pos : Nat) :
    rejectionSample rnd fuel { s with nextPoint := q } pos = rejectionSample rnd fuel s pos := by
  induction fuel generalizing pos with
  | zero => rfl
  | succ fuel ih =>
    simp only [rejectionSample, occupied]
    by_cases h : candidate rnd pos = s.head ∨ candidate rnd pos ∈ s.tail
    · simp only [h, if_true]
      exact ih (pos + 2)
    · simp only [h, if_false]

/-- What a returning rejection sampling gives: only `nextPoint` is changed,
and the new food point is the first unoccupied candidate. -/
theorem rejectionSample_some (rnd : Nat → Int) (fuel : Nat) (s : Snake) (pos : Nat)
    (s2 : Snake) (pos2 : Nat) (h : rejectionSample rnd fuel s pos = some (s2, pos2)) :
    ∃ k, k < fuel ∧ (∀ j, j < k → occupied s (candidate rnd (pos + 2 * j)))
      ∧ ¬ occupied s (candidate rnd (pos + 2 * k))
      ∧ s2 = { s with nextPoint := candidate rnd (pos + 2 * k) }
      ∧ pos2 = pos + 2 * (k + 1) := by
  induction fuel generalizing pos with
  | zero => simp [rejectionSample] at h
  | succ fuel ih =>
    simp only [rejectionSample] at h
    by_cases hc : occupied s (candidate rnd pos)
    · simp only [hc, if_true] at h
      obtain ⟨k, hk, hocc, hfree, hs2, hpos2⟩ := ih (pos + 2) h
      refine ⟨k + 1, Nat.succ_lt_succ hk, ?_, ?_, ?_, ?_⟩
      · intro j hj
        cases j with
        | zero => simpa using hc
        | succ j =>
          have := hocc j (Nat.lt_of_succ_lt_succ hj)
          have e : pos + 2 * (j + 1) = pos + 2 + 2 * j := by ring
          rw [e]; exact this
      · have e : pos + 2 * (k + 1) = pos + 2 + 2 * k := by ring
        rw [e]; exact hfree
      · have e : pos + 2 * (k + 1) = pos + 2 + 2 * k := by ring
        rw [e]; exact hs2
      · rw [hpos2]; ring
    · simp only [hc, if_false, Option.some.injEq, Prod.mk.injEq] at h
      refine ⟨0, Nat.succ_pos fuel, ?_, ?_, ?_, ?_⟩
      · intro j hj; exact absurd hj (Nat.not_lt_zero j)
      · simpa using hc
      · simpa using h.1.symm
      · simpa using h.2.symm

/-- The recursive `generateNextPoint` computes exactly what rejection sampling
computes, at every recursion depth: a retry made from inside the scan of the
tail returns an unoccupied point, so the rest of the scan calls nothing. -/
theorem generateNextPoint_eq_rejectionSample (rnd : Nat → Int) (fuel : Nat) (s : Snake)
    (pos : Nat) :
    generateNextPoint rnd fuel s pos = rejectionSample rnd fuel s pos := by
  induction fuel generalizing s pos with
  | zero => rfl
  | succ fuel ih =>
    have hrec : ∀ q, generateNextPoint rnd fuel { s with nextPoint := q } (pos + 2)
        = rejectionSample rnd fuel s (pos + 2) := by
      intro q
      rw [ih, rejectionSample_nextPoint_irrel]
    have hfree : ∀ s2 pos2, rejectionSample rnd fuel s (pos + 2) = some (s2, pos2) →
        s2.tail = s.tail ∧ s2.nextPoint ∉ s.tail := by
      intro s2 pos2 h2
      obtain ⟨k, _, _, hf, hs2, _⟩ := rejectionSample_some rnd fuel s (pos + 2) s2 pos2 h2
      subst hs2
      exact ⟨rfl, fun hm => hf (Or.inr hm)⟩
    simp only [generateNextPoint, rejectionSample, occupied]
    change (match (if candidate rnd pos = s.head then
        generateNextPoint rnd fuel { s with nextPoint := candidate rnd pos } (pos + 2)
        else some ({ s with nextPoint := candidate rnd pos }, pos + 2)) with
      | none => none
      | some (s2, pos2) => scanTail (generateNextPoint rnd fuel) s2.tail s2 pos2) = _
    by_cases hh : candidate rnd pos = s.head
    · simp only [hh, true_or, if_true]
      have hq := hrec s.head
      rw [hq]
      cases h2 : rejectionSample rnd fuel s (pos + 2) with
      | none => rfl
      | some r =>
        obtain ⟨s2, pos2⟩ := r
        obtain ⟨ht, hn⟩ := hfree s2 pos2 h2
        simp only
        rw [scanTail_pass]
        rw [ht]; exact hn
    · simp only [hh, false_or, if_false]
      by_cases ht : candidate rnd pos ∈ s.tail
      · simp only [ht, if_true]
        cases h2 : rejectionSample rnd fuel s (pos + 2) with
        | none =>
          apply scanTail_hit_none
          · exact ht
          · rw [hrec, h2]
        | some r =>
          obtain ⟨s2, pos2⟩ := r
          obtain ⟨_, hn⟩ := hfree s2 pos2 h2
          apply scanTail_hit
          · exact ht
          · rw [hrec, h2]
          · exact hn
      · simp only [ht, if_false]
        apply scanTail_pass
        exact ht

/-- Rejection sampling returns the first unoccupied candidate as soon as the
depth allows one more draw than the candidates rejected before it. -/
theorem rejectionSample_first_free (rnd : Nat → Int) (k fuel : Nat) (s : Snake) (pos : Nat)
    (hk : k < fuel) (hocc : ∀ j, j < k → occupied s (candidate rnd (pos + 2 * j)))
    (hfree : ¬ occupied s (candidate rnd (pos + 2 * k))) :
    rejectionSample rnd fuel s pos
      = some ({ s with nextPoint := candidate rnd (pos + 2 * k) }, pos + 2 * (k + 1)) := by
  induction k generalizing fuel pos with
  | zero =>
    cases fuel with
    | zero => exact absurd hk (Nat.lt_irrefl 0)
    | succ fuel =>
      have hf : ¬ occupied s (candidate rnd pos) := by simpa using hfree
      simp [rejectionSample, hf]
  | succ k ih =>
    cases fuel with
    | zero => exact absurd hk (Nat.not_lt_zero _)
    | succ fuel =>
      have h0 : occupied s (candidate rnd pos) := by
        simpa using hocc 0 (Nat.succ_pos k)
      have e : ∀ j, pos + 2 * (j + 1) = pos + 2 + 2 * j := fun j => by ring
      have hocc2 : ∀ j, j < k → occupied s (candidate rnd (pos + 2 + 2 * j)) := by
        intro j hj
        rw [← e]; exact hocc (j + 1) (Nat.succ_lt_succ hj)
      have hfree2 : ¬ occupied s (candidate rnd (pos + 2 + 2 * k)) := by
        rw [← e]; exact hfree
      have h := ih fuel (pos + 2) (Nat.lt_of_succ_lt_succ hk) hocc2 hfree2
      simp only [rejectionSample, h0, if_true, h, e]

/-- C2: whenever `generateNextPoint` returns, whatever the state, the random
results and the retries made (from the head test or from inside the scan of the
tail), the food point it leaves is neither the head nor a tail cell of the
state it was called on; head and tail themselves are not modified. -/
theorem generateNextPoint_never_on_snake (rnd : Nat → Int) (fuel : Nat) (s : Snake)
    (pos : Nat) (s2 : Snake) (pos2 : Nat)
    (h : generateNextPoint rnd fuel s pos = some (s2, pos2)) :
    s2.nextPoint ≠ s.head ∧ (∀ p, p ∈ s.tail → s2.nextPoint ≠ p)
      ∧ s2.head = s.head ∧ s2.tail = s.tail := by
  rw [generateNextPoint_eq_rejectionSample] at h
  obtain ⟨k, _, _, hf, hs2, _⟩ := rejectionSample_some rnd fuel s pos s2 pos2 h
  subst hs2
  refine ⟨fun he => hf (Or.inl he), fun p hp he => hf (Or.inr ?_), rfl, rfl⟩
  simp only at he
  rw [he]; exact hp

/-- Witness for C2: on `snake` the first candidate `(3,5)` is met inside the
scan of the tail, the retry draws the head `(3,3)`, and the call returns with
`(5,6)`. -/
theorem generateNextPoint_never_on_snake_witness :
    generateNextPoint drawsRetryInScan 3 snake 0
        = some ({ snake with nextPoint := ⟨5, 6⟩ }, 6)
      ∧ (⟨5, 6⟩ : Point) ≠ snake.head
      ∧ (∀ p, p ∈ snake.tail → (⟨5, 6⟩ : Point) ≠ p) :=
  ⟨by decide,
    (generateNextPoint_never_on_snake drawsRetryInScan 3 snake 0
      { snake with nextPoint := ⟨5, 6⟩ } 6 (by decide)).1,
    (generateNextPoint_never_on_snake drawsRetryInScan 3 snake 0
      { snake with nextPoint := ⟨5, 6⟩ } 6 (by decide)).2.1⟩

/-! ## Movement -/

/-- `move` panics exactly when nothing is pending and the tail is empty. -/
theorem move_eq_none_iff (s : Snake) :
    move s = none ↔ s.growth ≤ 0 ∧ s.tail = [] := by
  unfold move
  by_cases hg : s.growth > 0
  · simp only [hg, if_true, Nat.not_lt_zero, if_false]
    constructor
    · intro h; simp at h
    · intro h; omega
  · simp only [hg, if_false]
    cases ht : s.tail with
    | nil => simp; omega
    | cons a t => simp

/-- The state that `move` produces when it does not panic, written out. -/
theorem move_eq (s : Snake) :
    move s = if s.tail.length < (if s.growth > 0 then 0 else 1) then none
      else some { s with
        growth := (if s.growth > 0 then s.growth - 1 else s.growth)
        tail := s.head :: s.tail.take (s.tail.length - (if s.growth > 0 then 0 else 1))
        direction := s.nextDirection
        head := stepHead s.nextDirection s.head } := rfl

/-- The fields of the state that `move` produces. -/
theorem move_fields (s s1 : Snake) (h : move s = some s1) :
    s1.nextPoint = s.nextPoint ∧ s1.nextDirection = s.nextDirection
      ∧ s1.direction = s.nextDirection
      ∧ s1.tail = s.head :: s.tail.take (s.tail.length - (if s.growth > 0 then 0 else 1))
      ∧ s1.growth = (if s.growth > 0 then s.growth - 1 else s.growth)
      ∧ s1.head = stepHead s.nextDirection s.head := by
  rw [move_eq] at h
  by_cases hc : s.tail.length < (if s.growth > 0 then 0 else 1)
  · rw [if_pos hc] at h
    exact Option.noConfusion h
  · rw [if_neg hc] at h
    have h2 := Option.some.inj h
    subst h2
    exact ⟨rfl, rfl, rfl, rfl, rfl, rfl⟩

/-- `move` completes when an extension is pending or the tail is non-empty. -/
theorem move_isSome (s : Snake) (h : 0 < s.growth ∨ s.tail ≠ []) :
    ∃ s1, move s = some s1 := by
  cases hm : move s with
  | some s1 => exact ⟨s1, rfl⟩
  | none =>
    obtain ⟨hg, ht⟩ := (move_eq_none_iff s).mp hm
    rcases h with h | h
    · omega
    · exact absurd ht h

/-! ## Consumption check and tick -/

/-- What `generateNextPoint` leaves of the state: everything but `nextPoint`. -/
theorem generateNextPoint_fields (rnd : Nat → Int) (fuel : Nat) (s : Snake) (pos : Nat)
    (s2 : Snake) (pos2 : Nat) (h : generateNextPoint rnd fuel s pos = some (s2, pos2)) :
    s2 = { s with nextPoint := s2.nextPoint } ∧ ¬ occupied s s2.nextPoint := by
  rw [generateNextPoint_eq_rejectionSample] at h
  obtain ⟨k, _, _, hf, hs2, _⟩ := rejectionSample_some rnd fuel s pos s2 pos2 h
  subst hs2
  exact ⟨rfl, hf⟩

/-- A returning `checkPoint`: nothing changes when the head is not on the
food; otherwise `growth` is incremented and the food point regenerated. -/
theorem checkPoint_some (rnd : Nat → Int) (fuel : Nat) (s : Snake) (pos : Nat)
    (s2 : Snake) (pos2 : Nat) (h : checkPoint rnd fuel s pos = some (s2, pos2)) :
    (s.head ≠ s.nextPoint ∧ s2 = s ∧ pos2 = pos)
      ∨ (s.head = s.nextPoint
          ∧ s2 = { s with growth := wrap64 (s.growth + 1), nextPoint := s2.nextPoint }
          ∧ ¬ occupied s s2.nextPoint) := by
  unfold checkPoint at h
  by_cases hh : s.head = s.nextPoint
  · rw [if_pos hh] at h
    obtain ⟨hs2, hf⟩ := generateNextPoint_fields rnd fuel _ pos s2 pos2 h
    exact Or.inr ⟨hh, hs2, hf⟩
  · rw [if_neg hh] at h
    simp only [Option.some.injEq, Prod.mk.injEq] at h
    exact Or.inl ⟨hh, h.1.symm, h.2.symm⟩

/-- A returning tick, step by step. -/
theorem tick_some (rnd : Nat → Int) (fuel : Nat) (s : Snake) (pos : Nat)
    (s3 : Snake) (pos3 : Nat) (h : tick rnd fuel s pos = some (s3, pos3)) :
    ∃ s1 s2, move s = some s1 ∧ checkPoint rnd fuel s1 pos = some (s2, pos3)
      ∧ s3 = checkCollisions s2 := by
  unfold tick at h
  cases hm : move s with
  | none => rw [hm] at h; exact Option.noConfusion h
  | some s1 =>
    rw [hm] at h
    simp only at h
    cases hc : checkPoint rnd fuel s1 pos with
    | none => rw [hc] at h; exact Option.noConfusion h
    | some r =>
      obtain ⟨s2, pos2⟩ := r
      rw [hc] at h
      simp only [Option.some.injEq, Prod.mk.injEq] at h
      exact ⟨s1, s2, rfl, by rw [← h.2]; exact hc, h.1.symm⟩

/-- C3: the food point is not on the snake at tick boundaries. If `nextPoint`
is neither the head nor a tail cell, then after one tick (`move`, `checkPoint`,
`checkCollisions`) that completes, with any pending direction and any random
results, `nextPoint` is again neither the head nor a tail cell; and the startup
state left by the first `generateNextPoint` on `snake` is such a state. -/
theorem tick_keeps_food_off_snake (rnd : Nat → Int) (fuel : Nat) (s : Snake) (pos : Nat)
    (s3 : Snake) (pos3 : Nat) (hfree : ¬ occupied s s.nextPoint)
    (h : tick rnd fuel s pos = some (s3, pos3)) :
    ¬ occupied s3 s3.nextPoint
      ∧ (∀ rnd0 fuel0 pos0 s0 pos1, generateNextPoint rnd0 fuel0 snake pos0 = some (s0, pos1) →
          ¬ occupied s0 s0.nextPoint) := by
  constructor
  · obtain ⟨s1, s2, hm, hc, hs3⟩ := tick_some rnd fuel s pos s3 pos3 h
    obtain ⟨hnp, _, _, htail, _, _⟩ := move_fields s s1 hm
    have h2 : ¬ occupied s2 s2.nextPoint := by
      rcases checkPoint_some rnd fuel s1 pos s2 pos3 hc with ⟨hne, he, _⟩ | ⟨_, he, hf⟩
      · subst he
        intro hocc
        rcases hocc with ho | ho
        · exact hne ho.symm
        · rw [htail, hnp] at ho
          rcases List.mem_cons.mp ho with h0 | h0
          · exact hfree (Or.inl h0)
          · exact hfree (Or.inr (List.mem_of_mem_take h0))
      · intro hocc
        apply hf
        rw [he] at hocc
        exact hocc
    subst hs3
    intro hocc
    apply h2
    rcases hocc with ho | ho
    · exact Or.inl ho
    · refine Or.inr ?_
      have hp : (checkCollisions s2).tail <+: s2.tail := by
        rw [checkCollisions_tail]; exact List.takeWhile_prefix _
      exact hp.subset ho
  · intro rnd0 fuel0 pos0 s0 pos1 h0
    obtain ⟨hs0, hf⟩ := generateNextPoint_fields rnd0 fuel0 snake pos0 s0 pos1 h0
    intro hocc
    apply hf
    rw [hs0] at hocc
    exact hocc

/-- Witness for C3: the head of `snakeFoodAhead` moves onto the food, which
is regenerated at `(5,5)`, off the snake. -/
theorem tick_keeps_food_off_snake_witness :
    ¬ occupied snakeFoodAhead snakeFoodAhead.nextPoint
      ∧ tick (fun _ => 4) 3 snakeFoodAhead 0 = some (snakeAfterEating, 2)
      ∧ ¬ occupied snakeAfterEating snakeAfterEating.nextPoint :=
  ⟨by decide, by decide,
    (tick_keeps_food_off_snake (fun _ => 4) 3 snakeFoodAhead 0 snakeAfterEating 2
      (by decide) (by decide)).1⟩

/-! ## Head stepping and wrap -/

/-- On a grid coordinate the wrapped step is the toroidal neighbour, for the
three steps `move` can take. -/
theorem wrapCoord_step (c delta : Int) (h1 : 1 ≤ c) (h2 : c ≤ size)
    (hd : delta = -1 ∨ delta = 0 ∨ delta = 1) :
    wrapCoord (wrap64 (c + delta)) = torus c delta
      ∧ 1 ≤ wrapCoord (wrap64 (c + delta)) ∧ wrapCoord (wrap64 (c + delta)) ≤ size := by
  unfold wrapCoord wrap64 torus
  unfold size at *
  rcases hd with hd | hd | hd <;> subst hd <;> simp only <;> split_ifs <;> omega

theorem deltaX_cases (d : Char) : deltaX d = -1 ∨ deltaX d = 0 ∨ deltaX d = 1 := by
  unfold deltaX
  split_ifs <;> simp

theorem deltaY_cases (d : Char) : deltaY d = -1 ∨ deltaY d = 0 ∨ deltaY d = 1 := by
  unfold deltaY
  split_ifs <;> simp

/-- The stepped head of a head in the grid is in the grid. -/
theorem stepHead_inGrid (d : Char) (h : Point) (hg : inGrid h) : inGrid (stepHead d h) := by
  obtain ⟨hx1, hx2, hy1, hy2⟩ := hg
  obtain ⟨_, hx⟩ := wrapCoord_step h.x (deltaX d) hx1 hx2 (deltaX_cases d)
  obtain ⟨_, hy⟩ := wrapCoord_step h.y (deltaY d) hy1 hy2 (deltaY_cases d)
  exact ⟨hx.1, hx.2, hy.1, hy.2⟩

/-- The stepped head of a head in the grid, by toroidal coordinates. -/
theorem stepHead_torus (d : Char) (h : Point) (hg : inGrid h) :
    stepHead d h = ⟨torus h.x (deltaX d), torus h.y (deltaY d)⟩ := by
  obtain ⟨hx1, hx2, hy1, hy2⟩ := hg
  obtain ⟨hx, _⟩ := wrapCoord_step h.x (deltaX d) hx1 hx2 (deltaX_cases d)
  obtain ⟨hy, _⟩ := wrapCoord_step h.y (deltaY d) hy1 hy2 (deltaY_cases d)
  unfold stepHead
  rw [hx, hy]

theorem torus_zero (c : Int) (h1 : 1 ≤ c) (h2 : c ≤ size) : torus c 0 = c := by
  unfold torus
  unfold size at *
  omega

/-! ## Key handling and reachable states -/

/-- Key handling touches `nextDirection` only, and sets it to a direction
whose opposite the current direction is not. -/
theorem handleKeys_fields (k : Keys) (s : Snake) :
    (handleKeys k s).head = s.head ∧ (handleKeys k s).tail = s.tail
      ∧ (handleKeys k s).growth = s.growth ∧ (handleKeys k s).nextPoint = s.nextPoint
      ∧ (handleKeys k s).direction = s.direction
      ∧ ((handleKeys k s).nextDirection = s.nextDirection
          ∨ ((handleKeys k s).nextDirection = 'l' ∧ s.direction ≠ 'r')
          ∨ ((handleKeys k s).nextDirection = 'r' ∧ s.direction ≠ 'l')
          ∨ ((handleKeys k s).nextDirection = 'u' ∧ s.direction ≠ 'd')
          ∨ ((handleKeys k s).nextDirection = 'd' ∧ s.direction ≠ 'u')) := by
  unfold handleKeys
  simp only
  split_ifs <;> simp_all

/-- The fields a returning tick leaves or sets, besides the tail. -/
theorem tick_fields (rnd : Nat → Int) (fuel : Nat) (s : Snake) (pos : Nat)
    (s3 : Snake) (pos3 : Nat) (h : tick rnd fuel s pos = some (s3, pos3)) :
    s3.head = stepHead s.nextDirection s.head ∧ s3.direction = s.nextDirection
      ∧ s3.nextDirection = s.nextDirection := by
  obtain ⟨s1, s2, hm, hc, hs3⟩ := tick_some rnd fuel s pos s3 pos3 h
  obtain ⟨_, hnd, hd, _, _, hh⟩ := move_fields s s1 hm
  subst hs3
  rcases checkPoint_some rnd fuel s1 pos s2 pos3 hc with ⟨_, he, _⟩ | ⟨_, he, _⟩
  · subst he
    exact ⟨hh, hd, hnd⟩
  · rw [he]
    exact ⟨hh, hd, hnd⟩

/-- The head of every reachable state is a cell of the grid. -/
theorem reachable_head_inGrid (s : Snake) (h : Reachable s) : inGrid s.head := by
  induction h with
  | start rnd fuel pos s pos2 hg =>
    obtain ⟨hs, _⟩ := generateNextPoint_fields rnd fuel snake pos s pos2 hg
    have hh : s.head = snake.head := by rw [hs]
    rw [hh]
    decide
  | keys s k _ ih =>
    rw [(handleKeys_fields k s).1]
    exact ih
  | tick rnd fuel s pos s2 pos2 _ ht ih =>
    rw [(tick_fields rnd fuel s pos s2 pos2 ht).1]
    exact stepHead_inGrid _ _ ih

/-- C4 (wrap invariant): when the head has both coordinates in `[1, size]`
and `move` completes, whatever `nextDirection` holds, the head after `move`
again has both coordinates in `[1, size]`; hence the head of every state
reachable from the initial snake by key handling and ticks is in the grid. -/
theorem move_keeps_head_in_grid (s s1 : Snake) (hg : inGrid s.head)
    (hm : move s = some s1) :
    inGrid s1.head ∧ (∀ t, Reachable t → inGrid t.head) := by
  refine ⟨?_, reachable_head_inGrid⟩
  rw [(move_fields s s1 hm).2.2.2.2.2]
  exact stepHead_inGrid _ _ hg

/-- Witness for C4: from the top row, going up, the head wraps to row `size`. -/
theorem move_keeps_head_in_grid_witness :
    inGrid snakeAtTopEdge.head
      ∧ move snakeAtTopEdge = some snakeAtTopEdgeMoved
      ∧ inGrid snakeAtTopEdgeMoved.head :=
  ⟨by decide, by decide,
    (move_keeps_head_in_grid snakeAtTopEdge snakeAtTopEdgeMoved (by decide) (by decide)).1⟩

theorem torus_pred (c : Int) (h1 : 1 ≤ c) (h2 : c ≤ size) :
    torus c (-1) = (if c - 1 < 1 then size else c - 1) := by
  unfold torus
  unfold size at *
  split_ifs <;> omega

theorem torus_succ (c : Int) (h1 : 1 ≤ c) (h2 : c ≤ size) :
    torus c 1 = (if c + 1 > size then 1 else c + 1) := by
  unfold torus
  unfold size at *
  split_ifs <;> omega

/-- C5: `move` takes the pending direction and steps the head to its toroidal
neighbour. For a head `(x, y)` in the grid and `nextDirection` one of `u`, `d`,
`l`, `r`, after `move` the direction is the pending one, `nextDirection` is
unchanged, the moved coordinate is `((c - 1 + delta) mod size) + 1` with
`delta = -1` for `u` (on `y`) and `l` (on `x`), `+1` for `d` and `r`, that is
the plain neighbour unless it leaves `[1, size]`, where it is the opposite
bound; the other coordinate is unchanged. -/
theorem move_steps_head_to_toroidal_neighbour (s s1 : Snake) (hg : inGrid s.head)
    (hm : move s = some s1) :
    s1.direction = s.nextDirection ∧ s1.nextDirection = s.nextDirection
      ∧ (s.nextDirection = 'u' →
          s1.head = ⟨s.head.x, (s.head.y - 1 + (-1)) % size + 1⟩
          ∧ s1.head.y = (if s.head.y - 1 < 1 then size else s.head.y - 1))
      ∧ (s.nextDirection = 'd' →
          s1.head = ⟨s.head.x, (s.head.y - 1 + 1) % size + 1⟩
          ∧ s1.head.y = (if s.head.y + 1 > size then 1 else s.head.y + 1))
      ∧ (s.nextDirection = 'l' →
          s1.head = ⟨(s.head.x - 1 + (-1)) % size + 1, s.head.y⟩
          ∧ s1.head.x = (if s.head.x - 1 < 1 then size else s.head.x - 1))
      ∧ (s.nextDirection = 'r' →
          s1.head = ⟨(s.head.x - 1 + 1) % size + 1, s.head.y⟩
          ∧ s1.head.x = (if s.head.x + 1 > size then 1 else s.head.x + 1)) := by
  obtain ⟨_, hnd, hdir, _, _, hh⟩ := move_fields s s1 hm
  have ht := stepHead_torus s.nextDirection s.head hg
  obtain ⟨hx1, hx2, hy1, hy2⟩ := hg
  have hx0 := torus_zero s.head.x hx1 hx2
  have hy0 := torus_zero s.head.y hy1 hy2
  refine ⟨hdir, hnd, ?_, ?_, ?_, ?_⟩
  · intro hu
    have ex : deltaX 'u' = 0 := by decide
    have ey : deltaY 'u' = -1 := by decide
    rw [hu, ex, ey, hx0] at ht
    rw [hh, hu, ht]
    exact ⟨rfl, torus_pred _ hy1 hy2⟩
  · intro hu
    have ex : deltaX 'd' = 0 := by decide
    have ey : deltaY 'd' = 1 := by decide
    rw [hu, ex, ey, hx0] at ht
    rw [hh, hu, ht]
    exact ⟨rfl, torus_succ _ hy1 hy2⟩
  · intro hu
    have ex : deltaX 'l' = -1 := by decide
    have ey : deltaY 'l' = 0 := by decide
    rw [hu, ex, ey, hy0] at ht
    rw [hh, hu, ht]
    exact ⟨rfl, torus_pred _ hx1 hx2⟩
  · intro hu
    have ex : deltaX 'r' = 1 := by decide
    have ey : deltaY 'r' = 0 := by decide
    rw [hu, ex, ey, hy0] at ht
    rw [hh, hu, ht]
    exact ⟨rfl, torus_succ _ hx1 hx2⟩

/-- Witness for C5: from column `size`, going right, the head wraps to
column 1 and keeps its row. -/
theorem move_steps_head_to_toroidal_neighbour_witness :
    inGrid snakeAtRightEdge.head
      ∧ move snakeAtRightEdge = some snakeAtRightEdgeMoved
      ∧ snakeAtRightEdgeMoved.head
          = ⟨(snakeAtRightEdge.head.x - 1 + 1) % size + 1, snakeAtRightEdge.head.y⟩ :=
  ⟨by decide, by decide,
    ((move_steps_head_to_toroidal_neighbour snakeAtRightEdge snakeAtRightEdgeMoved
      (by decide) (by decide)).2.2.2.2.2 (by decide)).1⟩

/-! ## Tail shift and growth -/

/-- C6: with `growth = 0` and a non-empty tail, `move` completes and shifts
the tail: the new tail is the old head followed by the old tail without its
last cell, its length is unchanged, and `growth` stays 0. On the initial
snake (head `(3,3)`, direction `u`, tail `(3,4)..(3,8)`) the head becomes
`(3,2)` and the tail `(3,3)..(3,7)`. -/
theorem move_shifts_tail_when_not_growing (s : Snake) (hg : s.growth = 0)
    (ht : s.tail ≠ []) :
    (∃ s1, move s = some s1 ∧ s1.tail = s.head :: s.tail.dropLast
        ∧ s1.tail.length = s.tail.length ∧ s1.growth = 0)
      ∧ move snake = some snakeMoved := by
  refine ⟨?_, by decide⟩
  obtain ⟨s1, hm⟩ := move_isSome s (Or.inr ht)
  obtain ⟨_, _, _, htail, hgr, _⟩ := move_fields s s1 hm
  have hng : ¬ s.growth > 0 := by omega
  rw [if_neg hng] at htail hgr
  have hlen : 0 < s.tail.length := List.length_pos.mpr ht
  refine ⟨s1, hm, ?_, ?_, ?_⟩
  · rw [htail, List.dropLast_eq_take]
  · rw [htail, List.length_cons, List.length_take]
    omega
  · rw [hgr, hg]

/-- Witness for C6: the scenario of the initial snake. -/
theorem move_shifts_tail_when_not_growing_witness :
    snake.growth = 0 ∧ snake.tail ≠ []
      ∧ (∃ s1, move snake = some s1 ∧ s1.tail = snake.head :: snake.tail.dropLast
          ∧ s1.tail.length = snake.tail.length ∧ s1.growth = 0) :=
  ⟨by decide, by decide,
    (move_shifts_tail_when_not_growing snake (by decide) (by decide)).1⟩

theorem torus_ne (c delta : Int) (hd : delta = -1 ∨ delta = 1) : torus c delta ≠ c := by
  unfold torus
  unfold size at *
  rcases hd with hd | hd <;> subst hd <;> omega

/-- With one of the four directions, the stepped head of a head in the grid is
another cell. -/
theorem stepHead_ne (d : Char) (h : Point) (hg : inGrid h)
    (hd : d = 'u' ∨ d = 'd' ∨ d = 'l' ∨ d = 'r') : stepHead d h ≠ h := by
  rw [stepHead_torus d h hg]
  intro he
  have hx : torus h.x (deltaX d) = h.x := congrArg Point.x he
  have hy : torus h.y (deltaY d) = h.y := congrArg Point.y he
  rcases hd with hd | hd | hd | hd <;> subst hd
  · exact torus_ne h.y (-1) (Or.inl rfl) hy
  · exact torus_ne h.y 1 (Or.inr rfl) hy
  · exact torus_ne h.x (-1) (Or.inl rfl) hx
  · exact torus_ne h.x 1 (Or.inr rfl) hx

/-- C7: with `growth > 0`, `move` completes and extends the tail: the new
tail is the old head followed by the whole old tail (one cell longer, none
dropped), `growth` decreases by exactly one (from 1 to 0 in particular), and
the head advances as in every move: it is the stepped head, which for a head in
the grid is its toroidal neighbour, a different cell when `nextDirection` is
one of the four directions. -/
theorem move_extends_tail_when_growing (s : Snake) (hg : s.growth > 0) :
    ∃ s1, move s = some s1 ∧ s1.tail = s.head :: s.tail
      ∧ s1.tail.length = s.tail.length + 1
      ∧ s1.growth = s.growth - 1 ∧ (s.growth = 1 → s1.growth = 0)
      ∧ s1.head = stepHead s.nextDirection s.head
      ∧ (inGrid s.head →
          s1.head = ⟨(s.head.x - 1 + deltaX s.nextDirection) % size + 1,
                     (s.head.y - 1 + deltaY s.nextDirection) % size + 1⟩)
      ∧ (inGrid s.head →
          (s.nextDirection = 'u' ∨ s.nextDirection = 'd' ∨ s.nextDirection = 'l'
            ∨ s.nextDirection = 'r') → s1.head ≠ s.head) := by
  obtain ⟨s1, hm⟩ := move_isSome s (Or.inl hg)
  obtain ⟨_, _, _, htail, hgr, hh⟩ := move_fields s s1 hm
  rw [if_pos hg] at htail hgr
  have htail2 : s1.tail = s.head :: s.tail := by
    rw [htail, Nat.sub_zero, List.take_length]
  refine ⟨s1, hm, htail2, ?_, hgr, ?_, hh, ?_, ?_⟩
  · rw [htail2, List.length_cons]
  · intro h1
    rw [hgr, h1]; rfl
  · intro hgrid
    rw [hh, stepHead_torus _ _ hgrid]
    rfl
  · intro hgrid hd
    rw [hh]
    exact stepHead_ne _ _ hgrid hd

/-- Witness for C7: the initial snake with `growth = 1`. -/
theorem move_extends_tail_when_growing_witness :
    snakeGrowing.growth > 0 ∧ move snakeGrowing = some snakeGrown
      ∧ (∃ s1, move snakeGrowing = some s1 ∧ s1.tail = snakeGrowing.head :: snakeGrowing.tail
          ∧ s1.tail.length = snakeGrowing.tail.length + 1
          ∧ s1.growth = snakeGrowing.growth - 1) :=
  ⟨by decide, by decide,
    match move_extends_tail_when_growing snakeGrowing (by decide) with
    | ⟨s1, h1, h2, h3, h4, _⟩ => ⟨s1, h1, h2, h3, h4⟩⟩

/-- `checkPoint` does not touch the tail. -/
theorem checkPoint_tail (rnd : Nat → Int) (fuel : Nat) (s : Snake) (pos : Nat)
    (s2 : Snake) (pos2 : Nat) (h : checkPoint rnd fuel s pos = some (s2, pos2)) :
    s2.tail = s.tail ∧ s2.head = s.head := by
  rcases checkPoint_some rnd fuel s pos s2 pos2 h with ⟨_, he, _⟩ | ⟨_, he, _⟩
  · rw [he]; exact ⟨rfl, rfl⟩
  · rw [he]; exact ⟨rfl, rfl⟩

/-- C8: after a completed `move` the tail length is the old length, or the
old length plus one exactly when `growth > 0`; it is never smaller. Over a
whole tick, `checkPoint` keeps the tail, so a tail shorter than before the tick
comes from `checkCollisions` cutting it (the head is on a tail cell). -/
theorem move_never_shortens_tail (s s1 : Snake) (hm : move s = some s1) :
    s1.tail.length = s.tail.length + (if s.growth > 0 then 1 else 0)
      ∧ s.tail.length ≤ s1.tail.length ∧ s1.tail.length ≤ s.tail.length + 1
      ∧ (s1.tail.length = s.tail.length + 1 ↔ s.growth > 0)
      ∧ (∀ rnd fuel pos s3 pos3, tick rnd fuel s pos = some (s3, pos3) →
          ∃ s2, checkPoint rnd fuel s1 pos = some (s2, pos3) ∧ s2.tail = s1.tail
            ∧ s3 = checkCollisions s2
            ∧ (s3.tail.length < s.tail.length →
                s3.tail.length < s2.tail.length ∧ s2.head ∈ s2.tail)) := by
  obtain ⟨_, _, _, htail, _, _⟩ := move_fields s s1 hm
  have hlen : s1.tail.length = s.tail.length + (if s.growth > 0 then 1 else 0) := by
    rw [htail, List.length_cons, List.length_take]
    by_cases hg : s.growth > 0
    · simp [hg]
    · have hne : s.tail ≠ [] := by
        intro he
        have hn : move s = none := (move_eq_none_iff s).mpr ⟨by omega, he⟩
        rw [hn] at hm
        exact Option.noConfusion hm
      have hpos : 0 < s.tail.length := List.length_pos.mpr hne
      simp only [hg, if_false]
      omega
  refine ⟨hlen, ?_, ?_, ?_, ?_⟩
  · rw [hlen]; omega
  · rw [hlen]; split_ifs <;> omega
  · rw [hlen]; split_ifs <;> omega
  · intro rnd fuel pos s3 pos3 ht
    obtain ⟨s1b, s2, hmb, hc, hs3⟩ := tick_some rnd fuel s pos s3 pos3 ht
    have e : s1b = s1 := by
      rw [hm] at hmb
      exact (Option.some.inj hmb).symm
    subst e
    obtain ⟨ht2, _⟩ := checkPoint_tail rnd fuel s1b pos s2 pos3 hc
    refine ⟨s2, hc, ht2, hs3, ?_⟩
    intro hlt
    have hge : s.tail.length ≤ s2.tail.length := by
      rw [ht2, hlen]; omega
    refine ⟨by omega, ?_⟩
    by_contra hnot
    have hsame : (checkCollisions s2).tail = s2.tail := by
      rw [checkCollisions_tail]
      exact takeWhile_ne_of_not_mem _ _ hnot
    rw [hs3, hsame] at hlt
    omega

/-- Witness for C8: one tick of `snakeCoiled` moves (tail length 6 kept) and
then cuts the tail to 5 cells in `checkCollisions`. -/
theorem move_never_shortens_tail_witness :
    move snakeCoiled = some snakeCoiledMoved
      ∧ snakeCoiledMoved.tail.length = snakeCoiled.tail.length
      ∧ tick (fun _ => 4) 1 snakeCoiled 0 = some (snakeBitten, 0)
      ∧ snakeBitten.tail.length < snakeCoiled.tail.length
      ∧ (∃ s2, checkPoint (fun _ => 4) 1 snakeCoiledMoved 0 = some (s2, 0)
          ∧ s2.tail = snakeCoiledMoved.tail ∧ snakeBitten = checkCollisions s2
          ∧ (snakeBitten.tail.length < snakeCoiled.tail.length →
              snakeBitten.tail.length < s2.tail.length ∧ s2.head ∈ s2.tail)) :=
  ⟨by decide, by decide, by decide, by decide,
    (move_never_shortens_tail snakeCoiled snakeCoiledMoved (by decide)).2.2.2.2
      (fun _ => 4) 1 0 snakeBitten 0 (by decide)⟩

/-! ## Eating -/

/-- On a value of the `int64` range the wrap is the identity. -/
theorem wrap64_of_range (z : Int) (hlo : -9223372036854775808 ≤ z)
    (hhi : z ≤ 9223372036854775807) : wrap64 z = z := by
  unfold wrap64
  omega

/-! ## No reversal -/

theorem not_opposite_self (d : Char) : ¬ opposite d d := by
  unfold opposite
  rintro (⟨h1, h2⟩ | ⟨h1, h2⟩ | ⟨h1, h2⟩ | ⟨h1, h2⟩) <;> rw [h1] at h2 <;> revert h2 <;> decide

theorem not_opposite_l (d : Char) (h : d ≠ 'r') : ¬ opposite d 'l' := by
  unfold opposite
  rintro (⟨_, h2⟩ | ⟨_, h2⟩ | ⟨_, h2⟩ | ⟨h1, _⟩)
  · revert h2; decide
  · revert h2; decide
  · revert h2; decide
  · exact h h1

theorem not_opposite_r (d : Char) (h : d ≠ 'l') : ¬ opposite d 'r' := by
  unfold opposite
  rintro (⟨_, h2⟩ | ⟨_, h2⟩ | ⟨h1, _⟩ | ⟨_, h2⟩)
  · revert h2; decide
  · revert h2; decide
  · exact h h1
  · revert h2; decide

theorem not_opposite_u (d : Char) (h : d ≠ 'd') : ¬ opposite d 'u' := by
  unfold opposite
  rintro (⟨_, h2⟩ | ⟨h1, _⟩ | ⟨_, h2⟩ | ⟨_, h2⟩)
  · revert h2; decide
  · exact h h1
  · revert h2; decide
  · revert h2; decide

theorem not_opposite_d (d : Char) (h : d ≠ 'u') : ¬ opposite d 'd' := by
  unfold opposite
  rintro (⟨h1, _⟩ | ⟨_, h2⟩ | ⟨_, h2⟩ | ⟨_, h2⟩)
  · exact h h1
  · revert h2; decide
  · revert h2; decide
  · revert h2; decide

/-- Key handling keeps the pending direction from being the opposite of the
current one. -/
theorem handleKeys_not_opposite (k : Keys) (s : Snake)
    (h : ¬ opposite s.direction s.nextDirection) :
    ¬ opposite (handleKeys k s).direction (handleKeys k s).nextDirection := by
  obtain ⟨_, _, _, _, hd, hn⟩ := handleKeys_fields k s
  rw [hd]
  rcases hn with hn | ⟨hn, hne⟩ | ⟨hn, hne⟩ | ⟨hn, hne⟩ | ⟨hn, hne⟩ <;> rw [hn]
  · exact h
  · exact not_opposite_l _ hne
  · exact not_opposite_r _ hne
  · exact not_opposite_u _ hne
  · exact not_opposite_d _ hne

/-- In every reachable state the pending direction is not the opposite of the
current one. -/
theorem reachable_not_opposite (s : Snake) (h : Reachable s) :
    ¬ opposite s.direction s.nextDirection := by
  induction h with
  | start rnd fuel pos s pos2 hg =>
    obtain ⟨hs, _⟩ := generateNextPoint_fields rnd fuel snake pos s pos2 hg
    have h1 : s.direction = snake.direction := by rw [hs]
    have h2 : s.nextDirection = snake.nextDirection := by rw [hs]
    rw [h1, h2]
    decide
  | keys s k _ ih => exact handleKeys_not_opposite k s ih
  | tick rnd fuel s pos s2 pos2 _ ht _ =>
    obtain ⟨_, hd, hn⟩ := tick_fields rnd fuel s pos s2 pos2 ht
    rw [hd, hn]
    exact not_opposite_self _

/-- C10: the snake never reverses onto itself. In every state reachable from
the initial snake by key handling (any set of keys pressed) and ticks, in any
order, `nextDirection` is not the opposite of `direction`; so the direction
after a `move` is never the opposite of the direction before it. The initial
`snake` itself has the property too. -/
theorem snake_never_reverses (s : Snake) (h : Reachable s) :
    ¬ opposite s.direction s.nextDirection
      ∧ (∀ s1, move s = some s1 → ¬ opposite s.direction s1.direction)
      ∧ (∀ k, ¬ opposite (handleKeys k s).direction (handleKeys k s).nextDirection)
      ∧ ¬ opposite snake.direction snake.nextDirection := by
  have hinv := reachable_not_opposite s h
  refine ⟨hinv, ?_, fun k => handleKeys_not_opposite k s hinv, by decide⟩
  intro s1 hm
  rw [(move_fields s s1 hm).2.2.1]
  exact hinv

/-- Witness for C10: after startup, pressing Down while going up is reached
and leaves the pending direction `u`. -/
theorem snake_never_reverses_witness :
    (handleKeys keysDown snakeStarted).nextDirection = 'u'
      ∧ ¬ opposite (handleKeys keysDown snakeStarted).direction
          (handleKeys keysDown snakeStarted).nextDirection :=
  ⟨by decide,
    (snake_never_reverses (handleKeys keysDown snakeStarted)
      (Reachable.keys snakeStarted keysDown
        (Reachable.start (fun _ => 4) 1 0 snakeStarted 2 (by decide)))).1⟩

/-! ## Key filter -/

theorem opposite_l_iff (d : Char) : opposite d 'l' ↔ d = 'r' := by
  constructor
  · intro h
    by_contra hne
    exact not_opposite_l d hne h
  · intro h
    rw [h]
    decide

theorem opposite_r_iff (d : Char) : opposite d 'r' ↔ d = 'l' := by
  constructor
  · intro h
    by_contra hne
    exact not_opposite_r d hne h
  · intro h
    rw [h]
    decide

theorem opposite_u_iff (d : Char) : opposite d 'u' ↔ d = 'd' := by
  constructor
  · intro h
    by_contra hne
    exact not_opposite_u d hne h
  · intro h
    rw [h]
    decide

theorem opposite_d_iff (d : Char) : opposite d 'd' ↔ d = 'u' := by
  constructor
  · intro h
    by_contra hne
    exact not_opposite_d d hne h
  · intro h
    rw [h]
    decide

/-- The pending direction after key handling is the last accepted direction,
or the old pending direction when none is accepted. -/
theorem handleKeys_nextDirection (k : Keys) (s : Snake) :
    (handleKeys k s).nextDirection
      = ((acceptedDirections k s.direction).getLast?).getD s.nextDirection := by
  obtain ⟨l, r, u, d⟩ := k
  unfold handleKeys acceptedDirections
  simp only [List.filter_cons, List.filter_nil, Bool.and_eq_true, decide_eq_true_eq,
    opposite_l_iff, opposite_r_iff, opposite_u_iff, opposite_d_iff]
  cases l <;> cases r <;> cases u <;> cases d <;> simp <;> split_ifs <;> simp_all

/-- C11: key handling rejects only the exact opposite of the current
direction, not of the pending one. For every state and every set of pressed
arrow keys the new `nextDirection` is the direction of the last key, in the
order Left, Right, Up, Down, that is pressed and whose direction is not the
opposite of `direction`; it is unchanged when there is no such key, and no
other field changes. Going up: Down alone leaves `nextDirection` as it is,
Left gives `l`, Right gives `r`, and Right is accepted even when the pending
direction is `l`. -/
theorem handleKeys_takes_last_accepted_key (k : Keys) (s : Snake) :
    (handleKeys k s).nextDirection
        = ((acceptedDirections k s.direction).getLast?).getD s.nextDirection
      ∧ (acceptedDirections k s.direction = [] →
          (handleKeys k s).nextDirection = s.nextDirection)
      ∧ (∀ d, d ∈ acceptedDirections k s.direction → ¬ opposite s.direction d)
      ∧ (handleKeys k s).direction = s.direction
      ∧ (handleKeys k s).head = s.head ∧ (handleKeys k s).tail = s.tail
      ∧ (handleKeys k s).growth = s.growth ∧ (handleKeys k s).nextPoint = s.nextPoint
      ∧ (snakeStarted.direction = 'u'
          ∧ (handleKeys keysDown snakeStarted).nextDirection = snakeStarted.nextDirection
          ∧ (handleKeys keysLeft snakeStarted).nextDirection = 'l'
          ∧ (handleKeys keysRight snakeStarted).nextDirection = 'r')
      ∧ (snakeTurningLeft.direction = 'u' ∧ snakeTurningLeft.nextDirection = 'l'
          ∧ (handleKeys keysRight snakeTurningLeft).nextDirection = 'r') := by
  obtain ⟨hh, ht, hg, hp, hd, _⟩ := handleKeys_fields k s
  have hn := handleKeys_nextDirection k s
  refine ⟨hn, ?_, ?_, hd, hh, ht, hg, hp, by decide, by decide⟩
  · intro he
    rw [hn, he]
    rfl
  · intro d hmem
    unfold acceptedDirections at hmem
    obtain ⟨e, he, hed⟩ := List.mem_map.mp hmem
    have hf := (List.mem_filter.mp he).2
    simp only [Bool.and_eq_true, decide_eq_true_eq] at hf
    rw [← hed]
    exact hf.2

/-! ## Totality of movement -/

/-- C12 (counterexample): the state with head `(3,3)` in the grid, an empty
tail and `growth = 0` is a state of the claim, and `move` fails on it with the
slice-bounds panic of `s.tail[:len(s.tail)-1]`. -/
theorem move_panics_on_empty_tail :
    inGrid snakeNoTail.head ∧ (∀ p, p ∈ snakeNoTail.tail → inGrid p)
      ∧ snakeNoTail.growth ≥ 0 ∧ move snakeNoTail = none :=
  ⟨by decide, by decide, by decide, by decide⟩

/-- C12 (amended): `move` completes without a run-time failure on every state
whose tail is non-empty or whose `growth` is positive, wherever its cells are;
the only failure is the slice-bounds panic, and it occurs exactly when the tail
is empty and `growth ≤ 0`. -/
theorem move_total_unless_empty_tail (s : Snake) :
    ((0 < s.growth ∨ s.tail ≠ []) → ∃ s1, move s = some s1)
      ∧ (move s = none ↔ s.growth ≤ 0 ∧ s.tail = []) :=
  ⟨move_isSome s, move_eq_none_iff s⟩

/-- Witness for C12: with one extension pending `move` completes on an
empty tail. -/
theorem move_total_unless_empty_tail_witness :
    snakeNoTailGrowing.tail = [] ∧ ∃ s1, move snakeNoTailGrowing = some s1 :=
  ⟨by decide, (move_total_unless_empty_tail snakeNoTailGrowing).1 (Or.inl (by decide))⟩

/-! ## Range of the food point -/

/-- With results of `Int63n(size-1)`, every candidate is in the food range. -/
theorem candidate_inFoodRange (rnd : Nat → Int) (hv : validDraws rnd) (pos : Nat) :
    inFoodRange (candidate rnd pos) := by
  have h0 := hv pos
  have h1 := hv (pos + 1)
  unfold size at h0 h1
  unfold inFoodRange candidate size
  simp only
  omega

/-- The food point of a returning `generateNextPoint` is one of the candidates. -/
theorem generateNextPoint_is_candidate (rnd : Nat → Int) (fuel : Nat) (s : Snake)
    (pos : Nat) (s2 : Snake) (pos2 : Nat)
    (h : generateNextPoint rnd fuel s pos = some (s2, pos2)) :
    ∃ k, s2.nextPoint = candidate rnd (pos + 2 * k) := by
  rw [generateNextPoint_eq_rejectionSample] at h
  obtain ⟨k, _, _, _, hs2, _⟩ := rejectionSample_some rnd fuel s pos s2 pos2 h
  exact ⟨k, by rw [hs2]⟩

/-- The two ticks going up from the started snake are reachable. -/
theorem reachable_snakeTick2 : Reachable snakeTick2 := by
  have h0 : Reachable snakeStarted :=
    Reachable.start (fun _ => 4) 1 0 snakeStarted 2 (by decide)
  have h1 : Reachable snakeTick1 :=
    Reachable.tick (fun _ => 4) 1 snakeStarted 0 snakeTick1 0 h0 (by decide)
  exact Reachable.tick (fun _ => 4) 1 snakeTick1 0 snakeTick2 0 h1 (by decide)

/-- The three ticks going up from the started snake are reachable. -/
theorem reachable_snakeTick3 : Reachable snakeTick3 :=
  Reachable.tick (fun _ => 4) 1 snakeTick2 0 snakeTick3 0 reachable_snakeTick2 (by decide)

/-- C14: with every random result in `[0, size-2]`, every food point that
`generateNextPoint` produces has both coordinates in `[1, size-1] = [1, 9]`,
whatever the state; a tick keeps a food point of that range in that range; so
no cell of column 10 or row 10 receives food, although the head can be there
(three ticks going up from the start put the head on row 10). -/
theorem food_point_within_one_to_nine (rnd : Nat → Int) (hv : validDraws rnd) (fuel : Nat)
    (s : Snake) (pos : Nat) (s2 : Snake) (pos2 : Nat)
    (h : generateNextPoint rnd fuel s pos = some (s2, pos2)) :
    (1 ≤ s2.nextPoint.x ∧ s2.nextPoint.x ≤ 9 ∧ 1 ≤ s2.nextPoint.y ∧ s2.nextPoint.y ≤ 9)
      ∧ inFoodRange s2.nextPoint
      ∧ s2.nextPoint.x ≠ size ∧ s2.nextPoint.y ≠ size
      ∧ (∀ t t3 fuel3 pos3 pos4, inFoodRange t.nextPoint →
          tick rnd fuel3 t pos3 = some (t3, pos4) → inFoodRange t3.nextPoint)
      ∧ (∃ t, Reachable t ∧ t.head.y = size ∧ inGrid t.head) := by
  obtain ⟨k, hk⟩ := generateNextPoint_is_candidate rnd fuel s pos s2 pos2 h
  have hr : inFoodRange s2.nextPoint := by
    rw [hk]; exact candidate_inFoodRange rnd hv _
  have hr2 := hr
  unfold inFoodRange size at hr2
  refine ⟨by omega, hr, ?_, ?_, ?_, ⟨snakeTick3, reachable_snakeTick3, by decide, by decide⟩⟩
  · unfold size; omega
  · unfold size; omega
  · intro t t3 fuel3 pos3 pos4 ht htick
    obtain ⟨t1, t2, hm, hc, ht3⟩ := tick_some rnd fuel3 t pos3 t3 pos4 htick
    have hnp := (move_fields t t1 hm).1
    have h2 : inFoodRange t2.nextPoint := by
      unfold checkPoint at hc
      by_cases hh : t1.head = t1.nextPoint
      · rw [if_pos hh] at hc
        obtain ⟨k2, hk2⟩ := generateNextPoint_is_candidate rnd fuel3 _ pos3 t2 pos4 hc
        rw [hk2]; exact candidate_inFoodRange rnd hv _
      · rw [if_neg hh] at hc
        simp only [Option.some.injEq, Prod.mk.injEq] at hc
        rw [← hc.1, hnp]; exact ht
    rw [ht3]
    exact h2

/-- Witness for C14: on `snake` with the results 2,4 / 2,2 / 4,5 the food
point is `(5,6)`. -/
theorem food_point_within_one_to_nine_witness :
    validDraws drawsRetryInScan
      ∧ generateNextPoint drawsRetryInScan 3 snake 0
          = some ({ snake with nextPoint := ⟨5, 6⟩ }, 6)
      ∧ inFoodRange (⟨5, 6⟩ : Point) :=
  ⟨by
      intro i
      unfold drawsRetryInScan size
      split <;> omega,
    by decide,
    (food_point_within_one_to_nine drawsRetryInScan
      (by
        intro i
        unfold drawsRetryInScan size
        split <;> omega)
      3 snake 0 { snake with nextPoint := ⟨5, 6⟩ } 6 (by decide)).2.1⟩

/-! ## Termination of food generation -/

/-- Rejection sampling never returns when every candidate is occupied. -/
theorem rejectionSample_none_of_all_occupied (rnd : Nat → Int) (s : Snake)
    (hall : ∀ pos, occupied s (candidate rnd pos)) (fuel pos : Nat) :
    rejectionSample rnd fuel s pos = none := by
  induction fuel generalizing pos with
  | zero => rfl
  | succ fuel ih =>
    simp only [rejectionSample, hall pos, if_true]
    exact ih (pos + 2)

set_option maxRecDepth 100000 in
/-- Every cell of `[1,9]²` is under `snakeFull`. -/
theorem snakeFull_covers_fin :
    ∀ i : Fin 9, ∀ j : Fin 9, occupied snakeFull ⟨(i.val : Int) + 1, (j.val : Int) + 1⟩ := by
  decide

/-- With valid results every candidate lands on `snakeFull`. -/
theorem snakeFull_all_occupied (rnd : Nat → Int) (hv : validDraws rnd) (pos : Nat) :
    occupied snakeFull (candidate rnd pos) := by
  have h0 := hv pos
  have h1 := hv (pos + 1)
  unfold size at h0 h1
  have hi : (rnd pos).toNat < 9 := by omega
  have hj : (rnd (pos + 1)).toNat < 9 := by omega
  have h := snakeFull_covers_fin ⟨(rnd pos).toNat, hi⟩ ⟨(rnd (pos + 1)).toNat, hj⟩
  have ei : (((rnd pos).toNat : Nat) : Int) = rnd pos := Int.toNat_of_nonneg h0.1
  have ej : (((rnd (pos + 1)).toNat : Nat) : Int) = rnd (pos + 1) := Int.toNat_of_nonneg h1.1
  simp only [ei, ej] at h
  exact h

set_option maxRecDepth 100000 in
theorem snakeFull_tail_inGrid : ∀ p, p ∈ snakeFull.tail → inGrid p := by
  decide

/-- C13 (counterexample): `snakeFull` has its head and all its tail cells in
the grid, and on it `generateNextPoint` returns on no sequence of results of
`Int63n(size-1)`, at any recursion depth: every candidate is occupied. -/
theorem generateNextPoint_cannot_return_on_full_range :
    inGrid snakeFull.head ∧ (∀ p, p ∈ snakeFull.tail → inGrid p)
      ∧ ¬ ∃ rnd fuel pos r, validDraws rnd ∧ generateNextPoint rnd fuel snakeFull pos = some r := by
  refine ⟨by decide, snakeFull_tail_inGrid, ?_⟩
  rintro ⟨rnd, fuel, pos, r, hv, h⟩
  rw [generateNextPoint_eq_rejectionSample,
    rejectionSample_none_of_all_occupied rnd snakeFull (snakeFull_all_occupied rnd hv)] at h
  exact Option.noConfusion h

theorem drawsFor_valid (p : Point) (hp : inFoodRange p) : validDraws (drawsFor p) := by
  intro i
  unfold inFoodRange size at hp
  unfold drawsFor size
  split_ifs <;> omega

theorem candidate_drawsFor (p : Point) : candidate (drawsFor p) 0 = p := by
  unfold candidate drawsFor
  simp

set_option maxRecDepth 100000 in
theorem foodCells_nodup : foodCells.Nodup := by
  decide

set_option maxRecDepth 100000 in
theorem foodCells_inFoodRange : ∀ p, p ∈ foodCells → inFoodRange p := by
  decide

/-- A snake of fewer than 81 cells leaves a cell of the food range free. -/
theorem exists_free_of_short (s : Snake) (hlen : s.tail.length + 1 < 81) :
    ∃ p, inFoodRange p ∧ ¬ occupied s p := by
  by_contra hno
  have hsub : foodCells ⊆ s.head :: s.tail := by
    intro p hp
    by_contra hnot
    apply hno
    refine ⟨p, foodCells_inFoodRange p hp, ?_⟩
    intro hocc
    apply hnot
    rcases hocc with h | h
    · rw [h]; exact List.mem_cons_self _ _
    · exact List.mem_cons_of_mem _ h
  have hle := (List.subperm_of_subset foodCells_nodup hsub).length_le
  have h81 : foodCells.length = 81 := by decide
  rw [h81, List.length_cons] at hle
  omega

/-- C13 (amended): `generateNextPoint` can terminate exactly on the states
that leave a cell of its sampling range `[1, size-1]²` free: there are results
of `Int63n(size-1)` and a recursion depth on which it returns if and only if
some cell of the range is neither the head nor a tail cell. This is the case
whenever head and tail together have fewer than 81 cells. -/
theorem generateNextPoint_can_return_iff_free_cell (s : Snake) :
    ((∃ rnd fuel pos r, validDraws rnd ∧ generateNextPoint rnd fuel s pos = some r)
        ↔ ∃ p, inFoodRange p ∧ ¬ occupied s p)
      ∧ (s.tail.length + 1 < 81 →
          ∃ rnd fuel pos r, validDraws rnd ∧ generateNextPoint rnd fuel s pos = some r) := by
  have hback : (∃ p, inFoodRange p ∧ ¬ occupied s p) →
      ∃ rnd fuel pos r, validDraws rnd ∧ generateNextPoint rnd fuel s pos = some r := by
    rintro ⟨p, hp, hfree⟩
    refine ⟨drawsFor p, 1, 0,
      ({ s with nextPoint := candidate (drawsFor p) (0 + 2 * 0) }, 0 + 2 * (0 + 1)),
      drawsFor_valid p hp, ?_⟩
    rw [generateNextPoint_eq_rejectionSample]
    apply rejectionSample_first_free (drawsFor p) 0 1 s 0 (Nat.zero_lt_one)
    · intro j hj; exact absurd hj (Nat.not_lt_zero j)
    · rw [candidate_drawsFor]; exact hfree
  refine ⟨⟨?_, hback⟩, fun hlen => hback (exists_free_of_short s hlen)⟩
  rintro ⟨rnd, fuel, pos, ⟨s2, pos2⟩, hv, h⟩
  rw [generateNextPoint_eq_rejectionSample] at h
  obtain ⟨k, _, _, hf, hs2, _⟩ := rejectionSample_some rnd fuel s pos s2 pos2 h
  exact ⟨candidate rnd (pos + 2 * k), candidate_inFoodRange rnd hv _, hf⟩

/-- Witness for C13: the initial snake has 6 cells, so food generation can
return on it. -/
theorem generateNextPoint_can_return_iff_free_cell_witness :
    snake.tail.length + 1 < 81
      ∧ ∃ rnd fuel pos r, validDraws rnd ∧ generateNextPoint rnd fuel snake pos = some r :=
  ⟨by decide, (generateNextPoint_can_return_iff_free_cell snake).2 (by decide)⟩

/-! ## Food emoji -/

/-- `stringsContains` decides that `substr` is an infix of `s`. -/
theorem stringsContains_iff (s substr : List Nat) :
    stringsContains s substr = true ↔ substr <:+: s := by
  induction s with
  | nil =>
    simp only [stringsContains, List.isPrefixOf_iff_prefix, List.prefix_nil, List.infix_nil]
  | cons c t ih =>
    simp only [stringsContains, Bool.or_eq_true, List.isPrefixOf_iff_prefix, ih,
      List.infix_cons_iff]

/-- C15: `getFoodEmoji`, as a function of the value of `LANG` and of the
index drawn by `rand.Intn(len(f))`, returns the fallback `'@'` when `LANG`
does not contain `"UTF-8"` (the empty value of an unset variable included), and
otherwise the element at the drawn index of the palette, which has exactly 15
glyphs, none of them `'@'`; so the result is `'@'` if and only if `LANG` lacks
`"UTF-8"`. -/
theorem getFoodEmoji_fallback_iff_no_utf8 (lang : List Nat) (r : Nat)
    (hr : r < foodEmojis.length) :
    foodEmojis.length = 15 ∧ '@' ∉ foodEmojis
      ∧ (hasUnicodeSupport lang = true ↔ utf8Marker <:+: lang)
      ∧ (¬ utf8Marker <:+: lang → getFoodEmoji lang r = some '@')
      ∧ (utf8Marker <:+: lang →
          getFoodEmoji lang r = some (foodEmojis.get ⟨r, hr⟩)
          ∧ foodEmojis.get ⟨r, hr⟩ ∈ foodEmojis ∧ foodEmojis.get ⟨r, hr⟩ ≠ '@')
      ∧ (getFoodEmoji lang r = some '@' ↔ ¬ utf8Marker <:+: lang)
      ∧ getFoodEmoji [] r = some '@' := by
  have hat : '@' ∉ foodEmojis := by decide
  have hsup : hasUnicodeSupport lang = true ↔ utf8Marker <:+: lang :=
    stringsContains_iff lang utf8Marker
  have hmem : foodEmojis.get ⟨r, hr⟩ ∈ foodEmojis := List.get_mem _ _ _
  have hne : foodEmojis.get ⟨r, hr⟩ ≠ '@' := fun h => hat (h ▸ hmem)
  have hno : ¬ utf8Marker <:+: lang → getFoodEmoji lang r = some '@' := by
    intro h
    have hf : hasUnicodeSupport lang = false := by
      cases hb : hasUnicodeSupport lang with
      | false => rfl
      | true => exact absurd (hsup.mp hb) h
    unfold getFoodEmoji
    rw [hf]
    rfl
  have hyes : utf8Marker <:+: lang →
      getFoodEmoji lang r = some (foodEmojis.get ⟨r, hr⟩) := by
    intro h
    unfold getFoodEmoji randomFoodEmoji
    rw [hsup.mpr h, if_pos rfl, List.getElem?_eq_getElem hr]
    rfl
  refine ⟨by decide, hat, hsup, hno, fun h => ⟨hyes h, hmem, hne⟩, ⟨?_, hno⟩, rfl⟩
  intro hres hin
  rw [hyes hin] at hres
  exact hne (Option.some.inj hres)

/-- Witness for C15: with `LANG=en_US.UTF-8` and index 3 the glyph is the
fourth of the palette; with `LANG=C` it is `'@'`. -/
theorem getFoodEmoji_fallback_iff_no_utf8_witness :
    getFoodEmoji (asciiBytes "en_US.UTF-8") 3 = some (foodEmojis.get ⟨3, by decide⟩)
      ∧ getFoodEmoji (asciiBytes "C") 3 = some '@'
      ∧ (getFoodEmoji (asciiBytes "C") 3 = some '@' ↔ ¬ utf8Marker <:+: asciiBytes "C") :=
  ⟨by decide, by decide,
    (getFoodEmoji_fallback_iff_no_utf8 (asciiBytes "C") 3 (by decide)).2.2.2.2.2.1⟩

/-! ## Invariants of the running game -/

/-- In every reachable state the pending direction is one of the four. -/
theorem reachable_nextDirection (s : Snake) (h : Reachable s) :
    isDirection s.nextDirection := by
  induction h with
  | start rnd fuel pos s pos2 hg =>
    obtain ⟨hs, _⟩ := generateNextPoint_fields rnd fuel snake pos s pos2 hg
    have h2 : s.nextDirection = snake.nextDirection := by rw [hs]
    rw [h2]
    decide
  | keys s k _ ih =>
    obtain ⟨_, _, _, _, _, hn⟩ := handleKeys_fields k s
    unfold isDirection at *
    rcases hn with hn | ⟨hn, _⟩ | ⟨hn, _⟩ | ⟨hn, _⟩ | ⟨hn, _⟩ <;> rw [hn]
    · exact ih
    · exact Or.inr (Or.inr (Or.inl rfl))
    · exact Or.inr (Or.inr (Or.inr rfl))
    · exact Or.inl rfl
    · exact Or.inr (Or.inl rfl)
  | tick rnd fuel s pos s2 pos2 _ ht ih =>
    rw [(tick_fields rnd fuel s pos s2 pos2 ht).2.2]
    exact ih

/-- The tail a returning tick leaves: the moved tail cut before the first cell
equal to the new head. -/
theorem tick_tail (rnd : Nat → Int) (fuel : Nat) (s : Snake) (pos : Nat)
    (s3 : Snake) (pos3 : Nat) (h : tick rnd fuel s pos = some (s3, pos3)) :
    s3.tail = (s.head :: s.tail.take (s.tail.length - (if s.growth > 0 then 0 else 1))).takeWhile
      (fun p => decide (p ≠ stepHead s.nextDirection s.head)) := by
  obtain ⟨s1, s2, hm, hc, hs3⟩ := tick_some rnd fuel s pos s3 pos3 h
  obtain ⟨_, _, _, htail, _, hh⟩ := move_fields s s1 hm
  obtain ⟨ht2, hh2⟩ := checkPoint_tail rnd fuel s1 pos s2 pos3 hc
  rw [hs3, checkCollisions_tail, ht2, hh2, htail, hh]

/-- After a tick from a state with its head in the grid and a pending
direction among the four, the first tail cell is the old head. -/
theorem tick_tail_head (rnd : Nat → Int) (fuel : Nat) (s : Snake) (pos : Nat)
    (s3 : Snake) (pos3 : Nat) (h : tick rnd fuel s pos = some (s3, pos3))
    (hg : inGrid s.head) (hd : isDirection s.nextDirection) :
    s3.tail.head? = some s.head := by
  rw [tick_tail rnd fuel s pos s3 pos3 h]
  have hne : s.head ≠ stepHead s.nextDirection s.head :=
    fun he => stepHead_ne _ _ hg hd he.symm
  simp [List.takeWhile_cons, hne]

/-- The tail of every reachable state is non-empty. -/
theorem reachable_tail_ne_nil (s : Snake) (h : Reachable s) : s.tail ≠ [] := by
  induction h with
  | start rnd fuel pos s pos2 hg =>
    obtain ⟨hs, _⟩ := generateNextPoint_fields rnd fuel snake pos s pos2 hg
    have h2 : s.tail = snake.tail := by rw [hs]
    rw [h2]
    decide
  | keys s k _ ih =>
    rw [(handleKeys_fields k s).2.1]
    exact ih
  | tick rnd fuel s pos s2 pos2 h0 ht _ =>
    have hh := tick_tail_head rnd fuel s pos s2 pos2 ht (reachable_head_inGrid s h0)
      (reachable_nextDirection s h0)
    intro he
    rw [he] at hh
    exact Option.noConfusion hh

/-- C16: in every state reachable from the initial snake by key handling and
ticks, with any keys and any random results, the tail is non-empty, so the
bound `len(s.tail) - delta` of the slice expression in `move` is not negative
and `move` completes. The reason: after `move` the first tail cell is the old
head, which differs from the new head, so `checkCollisions` does not cut at
index 0 and the tail after the tick still starts with the old head. -/
theorem reachable_tail_nonempty (s : Snake) (h : Reachable s) :
    s.tail ≠ []
      ∧ (if s.growth > 0 then 0 else 1) ≤ s.tail.length
      ∧ (∃ s1, move s = some s1)
      ∧ (∀ s1, move s = some s1 → s1.tail.head? = some s.head ∧ s1.head ≠ s.head)
      ∧ (∀ rnd fuel pos s3 pos3, tick rnd fuel s pos = some (s3, pos3) →
          s3.tail.head? = some s.head ∧ s3.tail ≠ []) := by
  have hne := reachable_tail_ne_nil s h
  have hg := reachable_head_inGrid s h
  have hd := reachable_nextDirection s h
  have hpos : 0 < s.tail.length := List.length_pos.mpr hne
  refine ⟨hne, ?_, move_isSome s (Or.inr hne), ?_, ?_⟩
  · split_ifs <;> omega
  · intro s1 hm
    obtain ⟨_, _, _, htail, _, hh⟩ := move_fields s s1 hm
    refine ⟨by rw [htail]; rfl, ?_⟩
    rw [hh]
    exact stepHead_ne _ _ hg hd
  · intro rnd fuel pos s3 pos3 ht
    have hh := tick_tail_head rnd fuel s pos s3 pos3 ht hg hd
    refine ⟨hh, ?_⟩
    intro he
    rw [he] at hh
    exact Option.noConfusion hh

/-- Witness for C16: the state three ticks after the start is reachable and
its tail has 5 cells. -/
theorem reachable_tail_nonempty_witness :
    snakeTick3.tail.length = 5 ∧ snakeTick3.tail ≠ [] ∧ ∃ s1, move snakeTick3 = some s1 :=
  ⟨by decide, (reachable_tail_nonempty snakeTick3 reachable_snakeTick3).1,
    (reachable_tail_nonempty snakeTick3 reachable_snakeTick3).2.2.1⟩

/-- A tick keeps the snake from overlapping itself. -/
theorem tick_noOverlap (rnd : Nat → Int) (fuel : Nat) (s : Snake) (pos : Nat)
    (s3 : Snake) (pos3 : Nat) (h : tick rnd fuel s pos = some (s3, pos3))
    (hg : inGrid s.head) (hno : noOverlap s) : noOverlap s3 := by
  obtain ⟨hnot, hnd, hcells⟩ := hno
  have htail := tick_tail rnd fuel s pos s3 pos3 h
  have hhead := (tick_fields rnd fuel s pos s3 pos3 h).1
  have htake : List.Sublist (s.tail.take (s.tail.length - (if s.growth > 0 then 0 else 1)))
      s.tail := List.take_sublist _ _
  have hL : (s.head :: s.tail.take (s.tail.length - (if s.growth > 0 then 0 else 1))).Nodup := by
    apply List.nodup_cons.mpr
    exact ⟨fun hm => hnot (htake.subset hm), hnd.sublist htake⟩
  have hpre : s3.tail <+: s.head :: s.tail.take (s.tail.length - (if s.growth > 0 then 0 else 1)) := by
    rw [htail]; exact List.takeWhile_prefix _
  refine ⟨?_, hL.sublist hpre.sublist, ?_⟩
  · rw [htail, hhead]
    exact not_mem_takeWhile_ne _ _
  · intro p hp
    rcases List.mem_cons.mp (hpre.subset hp) with h0 | h0
    · rw [h0]; exact hg
    · exact hcells p (htake.subset h0)

/-- In every reachable state the snake does not overlap itself. -/
theorem reachable_noOverlap (s : Snake) (h : Reachable s) : noOverlap s := by
  induction h with
  | start rnd fuel pos s pos2 hg =>
    obtain ⟨hs, _⟩ := generateNextPoint_fields rnd fuel snake pos s pos2 hg
    have h1 : s.head = snake.head := by rw [hs]
    have h2 : s.tail = snake.tail := by rw [hs]
    unfold noOverlap
    rw [h1, h2]
    decide
  | keys s k _ ih =>
    obtain ⟨hh, ht, _⟩ := handleKeys_fields k s
    unfold noOverlap at *
    rw [hh, ht]
    exact ih
  | tick rnd fuel s pos s2 pos2 h0 ht ih =>
    exact tick_noOverlap rnd fuel s pos s2 pos2 ht (reachable_head_inGrid s h0) ih

set_option maxRecDepth 100000 in
theorem gridCells_covers_fin :
    ∀ i : Fin 10, ∀ j : Fin 10, (⟨(i.val : Int) + 1, (j.val : Int) + 1⟩ : Point) ∈ gridCells := by
  decide

theorem mem_gridCells_of_inGrid (p : Point) (hp : inGrid p) : p ∈ gridCells := by
  obtain ⟨hx1, hx2, hy1, hy2⟩ := hp
  unfold size at hx2 hy2
  have hi : (p.x - 1).toNat < 10 := by omega
  have hj : (p.y - 1).toNat < 10 := by omega
  have h := gridCells_covers_fin ⟨(p.x - 1).toNat, hi⟩ ⟨(p.y - 1).toNat, hj⟩
  have ei : (((p.x - 1).toNat : Nat) : Int) + 1 = p.x := by omega
  have ej : (((p.y - 1).toNat : Nat) : Int) + 1 = p.y := by omega
  simp only [ei, ej] at h
  exact h

/-- A snake in the grid that does not overlap itself has at most 99 tail
cells. -/
theorem noOverlap_length_le (s : Snake) (hg : inGrid s.head) (hno : noOverlap s) :
    s.tail.length ≤ 99 := by
  obtain ⟨hnot, hnd, hcells⟩ := hno
  have hL : (s.head :: s.tail).Nodup := List.nodup_cons.mpr ⟨hnot, hnd⟩
  have hsub : s.head :: s.tail ⊆ gridCells := by
    intro p hp
    rcases List.mem_cons.mp hp with h0 | h0
    · rw [h0]; exact mem_gridCells_of_inGrid _ hg
    · exact mem_gridCells_of_inGrid _ (hcells p h0)
  have hle := (List.subperm_of_subset hL hsub).length_le
  have h100 : gridCells.length = 100 := by decide
  rw [h100, List.length_cons] at hle
  omega

/-- C17: after every complete tick from a state reachable from the initial
snake, the snake does not overlap itself: the head is not equal to any tail
cell, the tail cells are pairwise distinct, and every tail cell lies in
`[1, size]²`; hence the tail has at most `size * size - 1 = 99` cells. The
same holds in the reachable state the tick started from. -/
theorem tick_leaves_no_overlap (rnd : Nat → Int) (fuel : Nat) (s : Snake) (pos : Nat)
    (s3 : Snake) (pos3 : Nat) (h : Reachable s)
    (ht : tick rnd fuel s pos = some (s3, pos3)) :
    (s3.head ∉ s3.tail ∧ s3.tail.Nodup ∧ (∀ p, p ∈ s3.tail → inGrid p)
        ∧ (s3.tail.length : Int) ≤ size * size - 1 ∧ s3.tail.length ≤ 99)
      ∧ (s.head ∉ s.tail ∧ s.tail.Nodup ∧ (∀ p, p ∈ s.tail → inGrid p)
        ∧ s.tail.length ≤ 99) := by
  have h3 : Reachable s3 := Reachable.tick rnd fuel s pos s3 pos3 h ht
  have hno3 := reachable_noOverlap s3 h3
  have hno := reachable_noOverlap s h
  have hl3 := noOverlap_length_le s3 (reachable_head_inGrid s3 h3) hno3
  have hl := noOverlap_length_le s (reachable_head_inGrid s h) hno
  refine ⟨⟨hno3.1, hno3.2.1, hno3.2.2, ?_, hl3⟩, hno.1, hno.2.1, hno.2.2, hl⟩
  unfold size
  omega

/-- Witness for C17: the third tick going up from the start. -/
theorem tick_leaves_no_overlap_witness :
    tick (fun _ => 4) 1 snakeTick2 0 = some (snakeTick3, 0)
      ∧ snakeTick3.head ∉ snakeTick3.tail ∧ snakeTick3.tail.Nodup
      ∧ (∀ p, p ∈ snakeTick3.tail → inGrid p) :=
  ⟨by decide,
    (tick_leaves_no_overlap (fun _ => 4) 1 snakeTick2 0 snakeTick3 0
      reachable_snakeTick2 (by decide)).1.1,
    (tick_leaves_no_overlap (fun _ => 4) 1 snakeTick2 0 snakeTick3 0
      reachable_snakeTick2 (by decide)).1.2.1,
    (tick_leaves_no_overlap (fun _ => 4) 1 snakeTick2 0 snakeTick3 0
      reachable_snakeTick2 (by decide)).1.2.2.1⟩

/-! ## Pending growth -/

/-- The growth a returning tick leaves: what `move` left, or that plus one. -/
theorem tick_growth (rnd : Nat → Int) (fuel : Nat) (s : Snake) (pos : Nat)
    (s3 : Snake) (pos3 : Nat) (h : tick rnd fuel s pos = some (s3, pos3)) :
    s3.growth = (if s.growth > 0 then s.growth - 1 else s.growth)
      ∨ s3.growth = wrap64 ((if s.growth > 0 then s.growth - 1 else s.growth) + 1) := by
  obtain ⟨s1, s2, hm, hc, hs3⟩ := tick_some rnd fuel s pos s3 pos3 h
  obtain ⟨_, _, _, _, hgr, _⟩ := move_fields s s1 hm
  have e3 : s3.growth = s2.growth := by rw [hs3]; rfl
  rcases checkPoint_some rnd fuel s1 pos s2 pos3 hc with ⟨_, he, _⟩ | ⟨_, he, _⟩
  · left
    rw [e3, he, hgr]
  · right
    have e2 : s2.growth = wrap64 (s1.growth + 1) := by rw [he]
    rw [e3, e2, hgr]

/-- In every reachable state `growth` is 0 or 1. -/
theorem reachable_growth (s : Snake) (h : Reachable s) : s.growth = 0 ∨ s.growth = 1 := by
  induction h with
  | start rnd fuel pos s pos2 hg =>
    obtain ⟨hs, _⟩ := generateNextPoint_fields rnd fuel snake pos s pos2 hg
    have h1 : s.growth = snake.growth := by rw [hs]
    rw [h1]
    decide
  | keys s k _ ih =>
    rw [(handleKeys_fields k s).2.2.1]
    exact ih
  | tick rnd fuel s pos s2 pos2 _ ht ih =>
    have hw : wrap64 (0 + 1) = 1 := by decide
    have hg := tick_growth rnd fuel s pos s2 pos2 ht
    rcases ih with ih | ih <;> rw [ih] at hg <;> simp only [gt_iff_lt, lt_self_iff_false,
      if_false, zero_lt_one, if_true, sub_self, hw] at hg
    · exact hg
    · exact hg

/-- C18: the pending growth count never exceeds one and is never negative.
In every state reachable from the initial snake (where `growth = 0`) by key
handling and ticks in the order `move`, `checkPoint`, `checkCollisions`,
`growth` is 0 or 1: `move` consumes the pending extension, leaving 0, before
`checkPoint` can add at most one. -/
theorem growth_is_zero_or_one (s : Snake) (h : Reachable s) :
    (s.growth = 0 ∨ s.growth = 1) ∧ 0 ≤ s.growth ∧ s.growth ≤ 1
      ∧ (∀ s1, move s = some s1 → s1.growth = 0)
      ∧ (∀ rnd fuel pos s3 pos3, tick rnd fuel s pos = some (s3, pos3) →
          s3.growth = 0 ∨ s3.growth = 1)
      ∧ snake.growth = 0 := by
  have hg := reachable_growth s h
  refine ⟨hg, by omega, by omega, ?_, ?_, rfl⟩
  · intro s1 hm
    rw [(move_fields s s1 hm).2.2.2.2.1]
    split_ifs <;> omega
  · intro rnd fuel pos s3 pos3 ht
    exact reachable_growth s3 (Reachable.tick rnd fuel s pos s3 pos3 h ht)

/-- Witness for C18: one tick from `snakeFoodAhead` (started with the food at
`(3,2)`) eats and leaves `growth = 1`. -/
theorem growth_is_zero_or_one_witness :
    tick (fun _ => 4) 3 snakeFoodAhead 0 = some (snakeAfterEating, 2)
      ∧ snakeAfterEating.growth = 1
      ∧ (snakeAfterEating.growth = 0 ∨ snakeAfterEating.growth = 1) :=
  ⟨by decide, by decide,
    (growth_is_zero_or_one snakeAfterEating
      (Reachable.tick (fun _ => 4) 3 snakeFoodAhead 0 snakeAfterEating 2
        (Reachable.start (drawsFor ⟨3, 2⟩) 1 0 snakeFoodAhead 2 (by decide))
        (by decide))).1⟩

/-! ## Food generation as rejection sampling -/

/-- Rejection sampling has not returned while every candidate it was allowed
to draw is occupied. -/
theorem rejectionSample_none_of_occupied (rnd : Nat → Int) (s : Snake) (fuel pos : Nat)
    (hocc : ∀ j, j < fuel → occupied s (candidate rnd (pos + 2 * j))) :
    rejectionSample rnd fuel s pos = none := by
  induction fuel generalizing pos with
  | zero => rfl
  | succ fuel ih =>
    have h0 : occupied s (candidate rnd pos) := by
      simpa using hocc 0 (Nat.succ_pos fuel)
    simp only [rejectionSample, h0, if_true]
    apply ih
    intro j hj
    have e : pos + 2 + 2 * j = pos + 2 * (j + 1) := by ring
    rw [e]
    exact hocc (j + 1) (Nat.succ_lt_succ hj)

/-- C19: `generateNextPoint` equals plain rejection sampling. At every
recursion depth it computes what `rejectionSample` computes. When the sequence
of candidates drawn from position `pos` has a first candidate, the `k`-th,
that is neither the head nor a tail cell, the recursive procedure (retrying on
a head hit and from inside the loop over the tail) returns exactly that
candidate as `nextPoint`, changes nothing else, and has consumed exactly the
`2 * (k + 1)` random results up to and including it, at every depth above `k`
(and has not returned at a smaller depth). When no candidate of the sequence is
free it never returns, at any depth. Conversely every result it returns is
such a first free candidate. -/
theorem generateNextPoint_is_rejection_sampling (rnd : Nat → Int) (s : Snake) (pos : Nat) :
    (∀ fuel, generateNextPoint rnd fuel s pos = rejectionSample rnd fuel s pos)
      ∧ (∀ k, (∀ j, j < k → occupied s (candidate rnd (pos + 2 * j))) →
          ¬ occupied s (candidate rnd (pos + 2 * k)) →
          (∀ fuel, k < fuel → generateNextPoint rnd fuel s pos
              = some ({ s with nextPoint := candidate rnd (pos + 2 * k) }, pos + 2 * (k + 1)))
          ∧ (∀ fuel, fuel ≤ k → generateNextPoint rnd fuel s pos = none))
      ∧ ((∀ j, occupied s (candidate rnd (pos + 2 * j))) →
          ∀ fuel, generateNextPoint rnd fuel s pos = none)
      ∧ (∀ fuel s2 pos2, generateNextPoint rnd fuel s pos = some (s2, pos2) →
          ∃ k, k < fuel ∧ (∀ j, j < k → occupied s (candidate rnd (pos + 2 * j)))
            ∧ ¬ occupied s (candidate rnd (pos + 2 * k))
            ∧ s2 = { s with nextPoint := candidate rnd (pos + 2 * k) }
            ∧ pos2 = pos + 2 * (k + 1)) := by
  refine ⟨fun fuel => generateNextPoint_eq_rejectionSample rnd fuel s pos, ?_, ?_, ?_⟩
  · intro k hocc hfree
    constructor
    · intro fuel hk
      rw [generateNextPoint_eq_rejectionSample]
      exact rejectionSample_first_free rnd k fuel s pos hk hocc hfree
    · intro fuel hk
      rw [generateNextPoint_eq_rejectionSample]
      exact rejectionSample_none_of_occupied rnd s fuel pos
        (fun j hj => hocc j (Nat.lt_of_lt_of_le hj hk))
  · intro hall fuel
    rw [generateNextPoint_eq_rejectionSample]
    exact rejectionSample_none_of_occupied rnd s fuel pos (fun j _ => hall j)
  · intro fuel s2 pos2 h
    rw [generateNextPoint_eq_rejectionSample] at h
    exact rejectionSample_some rnd fuel s pos s2 pos2 h

/-- Witness for C19: on `snake`, the candidates `(3,5)` (tail, met inside the
loop) and `(3,3)` (head) are rejected, `(5,6)` is returned and 6 results are
consumed. -/
theorem generateNextPoint_is_rejection_sampling_witness :
    occupied snake (candidate drawsRetryInScan 0)
      ∧ occupied snake (candidate drawsRetryInScan 2)
      ∧ ¬ occupied snake (candidate drawsRetryInScan 4)
      ∧ generateNextPoint drawsRetryInScan 3 snake 0
          = some ({ snake with nextPoint := candidate drawsRetryInScan (0 + 2 * 2) },
                  0 + 2 * (2 + 1)) :=
  ⟨by decide, by decide, by decide,
    ((generateNextPoint_is_rejection_sampling drawsRetryInScan snake 0).2.1 2
      (by decide) (by decide)).1 3 (by decide)⟩

/-! ## Eating: when `checkPoint` returns -/

/-- A sequence of candidates that has an unoccupied one has a first one. -/
theorem exists_first_free (rnd : Nat → Int) (s : Snake) (pos : Nat)
    (h : ∃ k, ¬ occupied s (candidate rnd (pos + 2 * k))) :
    ∃ k, (∀ j, j < k → occupied s (candidate rnd (pos + 2 * j)))
      ∧ ¬ occupied s (candidate rnd (pos + 2 * k)) := by
  refine ⟨Nat.find h, ?_, Nat.find_spec h⟩
  intro j hj
  by_contra hnot
  exact Nat.find_min h hj hnot

/-- C9 (counterexample): two states with the head on the food where the claim
fails. On `snakeFull` every candidate drawn by `Int63n(size-1)` is occupied, so
`checkPoint` returns on no sequence of results at any recursion depth: no new
food point is produced. On `snakeOnFoodMaxGrowth`, where `growth` is the
largest `int64`, `checkPoint` returns with `growth` wrapped to the smallest
`int64`, not increased by 1. -/
theorem checkPoint_fails_to_eat :
    (snakeFull.head = snakeFull.nextPoint
      ∧ ¬ ∃ rnd fuel pos r, validDraws rnd ∧ checkPoint rnd fuel snakeFull pos = some r)
    ∧ (snakeOnFoodMaxGrowth.head = snakeOnFoodMaxGrowth.nextPoint
      ∧ checkPoint drawsAfterEating 3 snakeOnFoodMaxGrowth 0
          = some ({ snakeOnFoodMaxGrowth with growth := -9223372036854775808,
                                              nextPoint := ⟨5, 6⟩ }, 6)
      ∧ (-9223372036854775808 : Int) ≠ snakeOnFoodMaxGrowth.growth + 1) := by
  refine ⟨⟨by decide, ?_⟩, by decide, by decide, by decide⟩
  rintro ⟨rnd, fuel, pos, r, hv, h⟩
  unfold checkPoint at h
  have hnone := rejectionSample_none_of_all_occupied rnd
    { snakeFull with growth := wrap64 (snakeFull.growth + 1) }
    (fun q => snakeFull_all_occupied rnd hv q) fuel pos
  rw [if_pos (by decide), generateNextPoint_eq_rejectionSample, hnone] at h
  exact Option.noConfusion h

/-- C9 (amended): `checkPoint` on a state whose head differs from `nextPoint`
returns the state unchanged. On a state whose head equals `nextPoint`:
every run that returns has incremented `growth` by one in `int64` arithmetic
(exactly `growth + 1` when `growth` is below the largest `int64`), has replaced
`nextPoint` by the first drawn candidate that is neither the head nor a tail
cell (so it differs from the point just eaten), and has left head, tail and
both directions unchanged; the run returns, at every recursion depth above the
index of that candidate, and so returns at some depth if and only if the
sequence of candidates contains an unoccupied one; with results of
`Int63n(size-1)` that is possible if and only if some cell of `[1, size-1]²`
is unoccupied. -/
theorem checkPoint_eats_when_it_returns (rnd : Nat → Int) (fuel : Nat) (s : Snake)
    (pos : Nat) :
    (s.head ≠ s.nextPoint → checkPoint rnd fuel s pos = some (s, pos))
      ∧ (s.head = s.nextPoint → ∀ s2 pos2, checkPoint rnd fuel s pos = some (s2, pos2) →
          s2.growth = wrap64 (s.growth + 1)
          ∧ (-9223372036854775808 ≤ s.growth → s.growth < 9223372036854775807 →
              s2.growth = s.growth + 1)
          ∧ s2.nextPoint ≠ s.head ∧ (∀ p, p ∈ s.tail → s2.nextPoint ≠ p)
          ∧ s2.nextPoint ≠ s.nextPoint
          ∧ s2.head = s.head ∧ s2.tail = s.tail
          ∧ s2.direction = s.direction ∧ s2.nextDirection = s.nextDirection
          ∧ (∃ k, k < fuel ∧ (∀ j, j < k → occupied s (candidate rnd (pos + 2 * j)))
              ∧ s2.nextPoint = candidate rnd (pos + 2 * k) ∧ pos2 = pos + 2 * (k + 1)))
      ∧ (s.head = s.nextPoint → ∀ k, k < fuel →
          (∀ j, j < k → occupied s (candidate rnd (pos + 2 * j))) →
          ¬ occupied s (candidate rnd (pos + 2 * k)) →
          checkPoint rnd fuel s pos
            = some ({ s with growth := wrap64 (s.growth + 1),
                             nextPoint := candidate rnd (pos + 2 * k) },
                    pos + 2 * (k + 1)))
      ∧ (s.head = s.nextPoint →
          ((∃ fuel2 r, checkPoint rnd fuel2 s pos = some r)
            ↔ ∃ k, ¬ occupied s (candidate rnd (pos + 2 * k))))
      ∧ (s.head = s.nextPoint →
          ((∃ rnd2 fuel2 pos2 r, validDraws rnd2 ∧ checkPoint rnd2 fuel2 s pos2 = some r)
            ↔ ∃ p, inFoodRange p ∧ ¬ occupied s p)) := by
  -- what a returning run on the food looks like, at any stream, depth and position
  have hret : ∀ (rnd1 : Nat → Int) (fuel1 pos1 : Nat) (s2 : Snake) (pos2 : Nat),
      s.head = s.nextPoint → checkPoint rnd1 fuel1 s pos1 = some (s2, pos2) →
      ∃ k, k < fuel1 ∧ (∀ j, j < k → occupied s (candidate rnd1 (pos1 + 2 * j)))
        ∧ ¬ occupied s (candidate rnd1 (pos1 + 2 * k))
        ∧ s2 = { s with growth := wrap64 (s.growth + 1),
                        nextPoint := candidate rnd1 (pos1 + 2 * k) }
        ∧ pos2 = pos1 + 2 * (k + 1) := by
    intro rnd1 fuel1 pos1 s2 pos2 heq hc
    unfold checkPoint at hc
    rw [if_pos heq, generateNextPoint_eq_rejectionSample] at hc
    exact rejectionSample_some rnd1 fuel1 _ pos1 s2 pos2 hc
  -- a run on the food returns the first unoccupied candidate
  have hgo : ∀ (rnd1 : Nat → Int) (fuel1 pos1 k : Nat), s.head = s.nextPoint → k < fuel1 →
      (∀ j, j < k → occupied s (candidate rnd1 (pos1 + 2 * j))) →
      ¬ occupied s (candidate rnd1 (pos1 + 2 * k)) →
      checkPoint rnd1 fuel1 s pos1
        = some ({ s with growth := wrap64 (s.growth + 1),
                         nextPoint := candidate rnd1 (pos1 + 2 * k) },
                pos1 + 2 * (k + 1)) := by
    intro rnd1 fuel1 pos1 k heq hk hocc hfree
    unfold checkPoint
    rw [if_pos heq, generateNextPoint_eq_rejectionSample]
    exact rejectionSample_first_free rnd1 k fuel1 { s with growth := wrap64 (s.growth + 1) }
      pos1 hk hocc hfree
  refine ⟨?_, ?_, ?_, ?_, ?_⟩
  · intro hne
    unfold checkPoint
    rw [if_neg hne]
  · intro heq s2 pos2 hc
    obtain ⟨k, hk, hocc, hfree, hs2, hpos2⟩ := hret rnd fuel pos s2 pos2 heq hc
    have hnp : s2.nextPoint = candidate rnd (pos + 2 * k) := by rw [hs2]
    have hg : s2.growth = wrap64 (s.growth + 1) := by rw [hs2]
    have hnh : s2.nextPoint ≠ s.head := by
      rw [hnp]; exact fun h => hfree (Or.inl h)
    refine ⟨hg, ?_, hnh, ?_, ?_, ?_, ?_, ?_, ?_, ⟨k, hk, hocc, hnp, hpos2⟩⟩
    · intro hlo hhi
      rw [hg]
      exact wrap64_of_range _ (by omega) (by omega)
    · intro p hp hpe
      apply hfree
      rw [← hnp, hpe]
      exact Or.inr hp
    · rw [← heq]; exact hnh
    · rw [hs2]
    · rw [hs2]
    · rw [hs2]
    · rw [hs2]
  · intro heq k hk hocc hfree
    exact hgo rnd fuel pos k heq hk hocc hfree
  · intro heq
    constructor
    · rintro ⟨fuel2, ⟨s2, pos2⟩, hc⟩
      obtain ⟨k, _, _, hfree, _, _⟩ := hret rnd fuel2 pos s2 pos2 heq hc
      exact ⟨k, hfree⟩
    · intro hex
      obtain ⟨k, hocc, hfree⟩ := exists_first_free rnd s pos hex
      exact ⟨k + 1, _, hgo rnd (k + 1) pos k heq (Nat.lt_succ_self k) hocc hfree⟩
  · intro heq
    constructor
    · rintro ⟨rnd2, fuel2, pos2, ⟨s2, pos3⟩, hv, hc⟩
      obtain ⟨k, _, _, hfree, _, _⟩ := hret rnd2 fuel2 pos2 s2 pos3 heq hc
      exact ⟨candidate rnd2 (pos2 + 2 * k), candidate_inFoodRange rnd2 hv _, hfree⟩
    · rintro ⟨p, hp, hfree⟩
      refine ⟨drawsFor p, 1, 0, _, drawsFor_valid p hp,
        hgo (drawsFor p) 1 0 0 heq Nat.zero_lt_one ?_ ?_⟩
      · intro j hj; exact absurd hj (Nat.not_lt_zero j)
      · rw [candidate_drawsFor]; exact hfree

/-- Witness for C9: the head of `snakeOnFood` is on the food; the candidates
`(3,2)` (just eaten) and `(3,5)` (tail) are rejected, `(5,6)` is taken and
`growth` goes from 0 to 1. -/
theorem checkPoint_eats_when_it_returns_witness :
    snakeOnFood.head = snakeOnFood.nextPoint
      ∧ wrap64 (snakeOnFood.growth + 1) = 1
      ∧ checkPoint drawsAfterEating 3 snakeOnFood 0
          = some ({ snakeOnFood with growth := wrap64 (snakeOnFood.growth + 1),
                                     nextPoint := candidate drawsAfterEating (0 + 2 * 2) },
                  0 + 2 * (2 + 1)) :=
  ⟨by decide, by decide,
    (checkPoint_eats_when_it_returns drawsAfterEating 3 snakeOnFood 0).2.2.1
      (by decide) 2 (by decide) (by decide) (by decide)⟩

end Snake2D
